/-
Verification of the go-pgsql PostgreSQL frontend library.

This file contains a shallow embedding, in Lean 4, of the parts of the
go-pgsql source that the verified properties speak about:

* the authentication handler (`readAuthenticationRequest` in conn_read.go),
* the typed ResultSet accessors (resultset.go / unnamed/part_015),
* the backend-message reader (`readBackendMessages` in conn_read.go),
* the COPY FROM driver (`copyFrom` in unnamed/part_005),
* the transaction controller (`WithTransaction` in unnamed/part_005),
* the .pgpass credential lookup (`passwordfromfile` in unnamed/part_005),
* the parameter-name rewriter (`replaceParameterName` / `adjustCommand`),
* the connection pool (pool.go) and the Close methods of Conn, Statement,
  ResultSet and Pool.

Go strings are modelled as Lean `String` (or `List Char` where index
arithmetic matters), Go byte slices as `List Nat`, Go errors as `Option`
of an error payload, and panics as an error component of the result.
Machine integers are modelled as `Int`/`Nat` with explicit reductions
mod 2^w where the Go code truncates.  External collaborators (the MD5
hash, the TCP stream) are abstracted: MD5 is an explicit function
parameter, the stream is a list of structured messages.
-/
import Mathlib

namespace Pgsql

/-! ## Basic wire / value helpers -/

/-- One hexadecimal digit, lowercase, as produced by Go's encoding/hex. -/
def hexDigit (n : Nat) : Char :=
  if n < 10 then Char.ofNat (48 + n) else Char.ofNat (87 + n)

/-- Hex encoding of a byte list, two lowercase digits per byte
(Go `hex.EncodeToString`). -/
def hexEncode (bs : List Nat) : String :=
  String.mk (bs.flatMap (fun b => [hexDigit (b / 16 % 16), hexDigit (b % 16)]))

/-- The bytes of a Go string (`[]byte(s)` conversion); the sources only
convert ASCII strings, so we take the code point of each character. -/
def strBytes (s : String) : List Nat :=
  s.data.map Char.toNat

/-! ## Authentication handler (conn_read.go, `readAuthenticationRequest`)

Go's crypto/md5 hasher is modelled as a buffer of written bytes together
with an abstract digest function `md5`; `Sum` applies the digest to the
buffer, `Reset` empties it, exactly following the calls made in the
source. -/

/-- State of a crypto/md5 hasher: the bytes written so far. -/
structure Md5Hasher where
  buf : List Nat
deriving Repr, DecidableEq

def Md5Hasher.new : Md5Hasher := ⟨[]⟩

def Md5Hasher.write (h : Md5Hasher) (bs : List Nat) : Md5Hasher := ⟨h.buf ++ bs⟩

def Md5Hasher.sum (md5 : List Nat → List Nat) (h : Md5Hasher) : List Nat := md5 h.buf

def Md5Hasher.reset (_h : Md5Hasher) : Md5Hasher := ⟨[]⟩

/-- A frontend message as assembled by the conn_write.go helpers: the
message code, the int32 length field as written, and the body. -/
inductive FrontendMsg where
  | query (command : String)
  | passwordMessage (length : Int) (password : String)
  | copyData (length : Int) (payload : List Nat)
  | copyDone (length : Int)
  | copyFail (length : Int) (message : String)
  | closeItem (itemType : Char) (itemName : String)
  | terminate
deriving Repr, DecidableEq

/-- Result of `readAuthenticationRequest` after the length and the auth
type have been read: either a panic message, or an optional
PasswordMessage reply (`none` for AuthenticationOk, which is a no-op). -/
def readAuthenticationRequest (md5 : List Nat → List Nat)
    (password user : String) (authType : Int) (salt : List Nat) :
    Except String (Option FrontendMsg) :=
  if authType = 0 then
    -- _AuthenticationOk: nop
    .ok none
  else if authType = 5 then
    -- _AuthenticationMD5Password
    let h0 := Md5Hasher.new
    let h1 := h0.write (strBytes password)
    let h2 := h1.write (strBytes user)
    let md5HashHex1 := hexEncode (h2.sum md5)
    let h3 := h2.reset
    let h4 := h3.write (strBytes md5HashHex1)
    let h5 := h4.write salt
    let md5HashHex2 := hexEncode (h5.sum md5)
    let pwd := "md5" ++ md5HashHex2
    -- writePasswordMessage: msgLen = 4 + len(password) + 1
    .ok (some (.passwordMessage (4 + (strBytes pwd).length + 1) pwd))
  else
    .error ("unsupported authentication type: " ++ toString authType)

/-! ## ResultSet typed accessors (unnamed/part_015) -/

/-- Field wire format (resultset.go `fieldFormat`). -/
inductive FieldFormat where
  | text
  | binary
deriving Repr, DecidableEq

/-- A result field descriptor (name, format, type OID). -/
structure FieldDesc where
  name : String
  format : FieldFormat
  typeOID : Int
deriving Repr, DecidableEq

/-- The ResultSet record (unnamed/part_015); the `conn` back-pointer is
kept separately in the functions that need it. -/
structure RS where
  hasCurrentRow : Bool
  currentResultComplete : Bool
  allResultsComplete : Bool
  rowsAffected : Int
  fields : List FieldDesc
  values : List (Option (List Nat))
deriving Repr, DecidableEq

def newResultSet : RS :=
  { hasCurrentRow := false
    currentResultComplete := false
    allResultsComplete := false
    rowsAffected := 0
    fields := []
    values := [] }

/-- Decimal digit value of a character, if it is a digit. -/
def digitVal (c : Char) : Option Nat :=
  if 48 ≤ c.toNat ∧ c.toNat ≤ 57 then some (c.toNat - 48) else none

def parseDigits : List Char → Option Nat
  | [] => none
  | cs =>
    cs.foldl (fun acc c => match acc, digitVal c with
      | some n, some d => some (10 * n + d)
      | _, _ => none) (some 0)

/-- Go `strconv.ParseInt(s, 10, 64)` / `strconv.Atoi` on a 64-bit
platform: optional sign, decimal digits, error on junk or on overflow
past the int64 range. -/
def parseInt64 (cs : List Char) : Option Int :=
  let signed : Option Int :=
    match cs with
    | '-' :: rest => (parseDigits rest).map (fun n => -(n : Int))
    | '+' :: rest => (parseDigits rest).map (fun n => (n : Int))
    | _ => (parseDigits cs).map (fun n => (n : Int))
  match signed with
  | some v => if -(2 ^ 63) ≤ v ∧ v < 2 ^ 63 then some v else none
  | none => none

/-- Bytes of a field value viewed as characters (`string(val)`). -/
def valChars (bs : List Nat) : List Char := bs.map Char.ofNat

/-- Big-endian unsigned value of a byte list (binary.BigEndian). -/
def beUint (bs : List Nat) : Nat := bs.foldl (fun acc b => acc * 256 + b % 256) 0

/-- Reduce an integer to a signed w-bit value, as a Go conversion
`intN(x)` does (two's complement truncation). -/
def toSigned (w : Nat) (x : Int) : Int :=
  (x + 2 ^ (w - 1)) % 2 ^ w - 2 ^ (w - 1)

/-- Reduce an integer to an unsigned w-bit value, as a Go conversion
`uintN(x)` does. -/
def toUnsigned (w : Nat) (x : Int) : Int := x % 2 ^ w

/-- Accessor result: an error (panic inside withRecover), or a value
with its null flag.  `none` value with `isNull = true` mirrors the Go
zero value being returned alongside `isNull`. -/
abbrev AccessorResult := Except String (Option Int)

/-- `*ResultSet.isNull`: panics without a current row. -/
def rsIsNull (rs : RS) (ord : Nat) : Except String Bool :=
  if !rs.hasCurrentRow then .error "invalid row"
  else .ok ((rs.values.getD ord none).isNone)

/-- Shared shape of the signed integer accessors (`int16`, `int32`,
`int64` in unnamed/part_015): parse the text form with strconv, or take
the big-endian bytes, then truncate with the Go conversion to width w. -/
def rsIntW (w : Nat) (rs : RS) (ord : Nat) : AccessorResult := do
  let isNull ← rsIsNull rs ord
  if isNull then return none
  let val := (rs.values.getD ord none).getD []
  match (rs.fields.getD ord ⟨"", .text, 0⟩).format with
  | .text =>
    match parseInt64 (valChars val) with
    | some x => return some (toSigned w x)
    | none => .error "strconv parse error"
  | .binary => return some (toSigned w (beUint val))

/-- `*ResultSet.int16` (text: `strconv.Atoi` then `int16(x)`;
binary: `int16(binary.BigEndian.Uint16(val))`). -/
def rsInt16 (rs : RS) (ord : Nat) : AccessorResult := rsIntW 16 rs ord

/-- `*ResultSet.int32`. -/
def rsInt32 (rs : RS) (ord : Nat) : AccessorResult := rsIntW 32 rs ord

/-- `*ResultSet.int64`. -/
def rsInt64 (rs : RS) (ord : Nat) : AccessorResult := rsIntW 64 rs ord

/-- `*ResultSet.uint16`: `val, isNull = rs.int16(ord); value = uint16(val)`. -/
def rsUint16 (rs : RS) (ord : Nat) : AccessorResult :=
  (rsInt16 rs ord).map (Option.map (toUnsigned 16))

/-- `*ResultSet.uint32`: cast of the int32 accessor. -/
def rsUint32 (rs : RS) (ord : Nat) : AccessorResult :=
  (rsInt32 rs ord).map (Option.map (toUnsigned 32))

/-- `*ResultSet.uint64`: cast of the int64 accessor. -/
def rsUint64 (rs : RS) (ord : Nat) : AccessorResult :=
  (rsInt64 rs ord).map (Option.map (toUnsigned 64))

/-- `*ResultSet.uint`: `val, isNull = rs.uint32(ord); value = uint(val)`
(64-bit platform: the uint32 value zero-extended). -/
def rsUint (rs : RS) (ord : Nat) : AccessorResult := rsUint32 rs ord

/-- A concrete sample ResultSet holding the text value "-1" in a single
text-format int2 column. -/
def sampleNegRS : RS :=
  { hasCurrentRow := true
    currentResultComplete := false
    allResultsComplete := false
    rowsAffected := 0
    fields := [⟨"c", .text, 21⟩]
    values := [some (strBytes "-1")] }

/-! ## Backend messages and the message reader (conn_read.go)

The TCP stream is abstracted into a list of structured backend messages;
each reader case consumes the head of the list where the Go code reads
the message body from the wire.  Mutation through the `*Conn` and
`*ResultSet` pointers is modelled by returning the updated records even
when the operation panics (the Go panic leaves the pointed-to records in
their mutated state), so the reader returns the state together with an
optional error. -/

/-- The fields of a PostgreSQL ErrorResponse / NoticeResponse
(error.go `Error`).  `where` is a Lean keyword, so that field is called
`whereField`. -/
structure PgError where
  severity : String := ""
  code : String := ""
  message : String := ""
  detail : String := ""
  hint : String := ""
  position : String := ""
  internalPosition : String := ""
  internalQuery : String := ""
  whereField : String := ""
  file : String := ""
  line : String := ""
  routine : String := ""
deriving Repr, DecidableEq

/-- A recovered panic payload: either a backend `*Error` or any other
panic value (I/O failure strings, usage errors, ...). -/
inductive Err where
  | pg (e : PgError)
  | other (msg : String)
deriving Repr, DecidableEq

/-- Connection status (unnamed/part_005 `ConnStatus`). -/
inductive ConnStatus where
  | disconnected
  | ready
  | processingQuery
  | copy
deriving Repr, DecidableEq

/-- The user and password of the connection parameters, the only fields
the reader consults (for MD5 authentication). -/
structure ConnParams where
  user : String
  password : String
deriving Repr, DecidableEq

/-- The connection record (unnamed/part_005 `Conn`), restricted to the
fields the verified operations touch.  The Go `map[string]string` of
runtime parameters is modelled as an association list; `sent` collects
the frontend messages written so far. -/
structure Conn where
  status : ConnStatus
  sent : List FrontendMsg
  params : Option ConnParams
  onErrorDontRequireReadyForQuery : Bool
  backendPID : Int
  backendSecretKey : Int
  runtimeParameters : List (String × String)
  dateFormat : String
  timeFormat : String
  timestampFormat : String
  timestampTimezoneFormat : String
deriving Repr, DecidableEq

/-- A freshly connected Conn as produced by `Connect` in
unnamed/part_005: Ready state, empty runtime-parameter map, empty
time formats. -/
def connInitial : Conn :=
  { status := .ready
    sent := []
    params := none
    onErrorDontRequireReadyForQuery := false
    backendPID := 0
    backendSecretKey := 0
    runtimeParameters := []
    dateFormat := ""
    timeFormat := ""
    timestampFormat := ""
    timestampTimezoneFormat := "" }

/-- `*Conn.RuntimeParameter` (unnamed/part_005): look the name up in the
runtime-parameter keyword map; `none` plays the role of ok = false. -/
def runtimeParameter (conn : Conn) (name : String) : Option String :=
  (conn.runtimeParameters.find? (fun p => p.1 = name)).map Prod.snd

/-- `*Conn.updateTimeFormats` (unnamed/part_005): recompute the textual
date/time/timestamp/timezone formats from the recorded DateStyle. -/
def updateTimeFormats (conn : Conn) : Conn :=
  let style := (runtimeParameter conn "DateStyle").getD ""
  if style = "ISO" ∨ style = "ISO, DMY" ∨ style = "ISO, MDY" ∨ style = "ISO, YMD" then
    { conn with
      dateFormat := "2006-01-02"
      timeFormat := "15:04:05"
      timestampFormat := "2006-01-02 15:04:05"
      timestampTimezoneFormat := "-07" }
  else if style = "SQL" ∨ style = "SQL, MDY" then
    { conn with
      dateFormat := "01/02/2006"
      timeFormat := "15:04:05"
      timestampFormat := "01/02/2006 15:04:05"
      timestampTimezoneFormat := " MST" }
  else if style = "SQL, DMY" then
    { conn with
      dateFormat := "02/01/2006"
      timeFormat := "15:04:05"
      timestampFormat := "02/01/2006 15:04:05"
      timestampTimezoneFormat := " MST" }
  else if style = "Postgres" ∨ style = "Postgres, DMY" then
    { conn with
      dateFormat := "02-01-2006"
      timeFormat := "15:04:05"
      timestampFormat := "Mon 02 Jan 15:04:05 2006"
      timestampTimezoneFormat := " MST" }
  else if style = "Postgres, MDY" then
    { conn with
      dateFormat := "01-02-2006"
      timeFormat := "15:04:05"
      timestampFormat := "Mon Jan 02 15:04:05 2006"
      timestampTimezoneFormat := " MST" }
  else if style = "German" ∨ style = "German, DMY" ∨ style = "German, MDY" then
    { conn with
      dateFormat := "02.01.2006"
      timeFormat := "15:04:05"
      timestampFormat := "02.01.2006 15:04:05"
      timestampTimezoneFormat := " MST" }
  else
    { conn with
      dateFormat := ""
      timeFormat := ""
      timestampFormat := ""
      timestampTimezoneFormat := "" }

/-- One backend message, with its decoded body. -/
inductive BackendMsg where
  | authRequest (authType : Int) (salt : List Nat)
  | backendKeyData (pid secretKey : Int)
  | bindComplete
  | closeComplete
  | commandComplete (tag : String)
  | dataRow (values : List (Option (List Nat)))
  | emptyQueryResponse
  | errorResponse (e : PgError)
  | noticeResponse (e : PgError)
  | parameterStatus (name value : String)
  | parseComplete
  | readyForQuery (txStatus : Nat)
  | rowDescription (fields : List FieldDesc)
  | copyInResponse
deriving Repr, DecidableEq

/-- Rows-affected extraction in `readCommandComplete`: split the command
tag on spaces, `strconv.Atoi64` the last part, keep the zero value if the
parse fails (the code logs a warning and assigns anyway). -/
def commandTagRows (tag : String) : Int :=
  let parts := tag.splitOn " "
  (parseInt64 (parts.getLastD "").data).getD 0

/-- Result of one `readBackendMessages` call: the connection and
ResultSet as mutated so far, the unread tail of the stream, and the
recovered panic if one occurred. -/
structure ReadOut where
  conn : Conn
  rs : Option RS
  rest : List BackendMsg
  err : Option Err
deriving Repr, DecidableEq

/-- Modelled from the spec: the CopyInResponse handler and the Copy
connection state are not part of the sources under src/ (only the
`_CopyInResponse` message code and the `copyFrom` caller are); per
spec §4.3 the reader returns to the caller after CopyInResponse and per
§4.4 the connection transitions Ready → Copy on CopyInResponse. -/
def processCopyInResponse (conn : Conn) : Conn :=
  { conn with status := .copy }

/-- `*Conn.readBackendMessages` (conn_read.go): pull one message,
dispatch on its code, and either return to the caller (BindComplete,
CommandComplete, DataRow, ParseComplete, ReadyForQuery, RowDescription,
and the spec-modelled CopyInResponse) or continue with the next message.
An exhausted stream models a blocking read failing (`read failed`).
ErrorResponse drains through the following ReadyForQuery with a nil
ResultSet first, unless `onErrorDontRequireReadyForQuery` is set, and
then surfaces the backend error as a panic. -/
def readBackendMessages (md5 : List Nat → List Nat) :
    Conn → Option RS → List BackendMsg → ReadOut
  | conn, rs, [] => ⟨conn, rs, [], some (.other "read failed")⟩
  | conn, rs, msg :: rest =>
    match msg with
    | .authRequest t salt =>
      match conn.params with
      | none => ⟨conn, rs, rest, some (.other "nil connection params")⟩
      | some p =>
        match readAuthenticationRequest md5 p.password p.user t salt with
        | .ok none => readBackendMessages md5 conn rs rest
        | .ok (some m) =>
          readBackendMessages md5 { conn with sent := conn.sent ++ [m] } rs rest
        | .error e => ⟨conn, rs, rest, some (.other e)⟩
    | .backendKeyData pid key =>
      readBackendMessages md5
        { conn with backendPID := pid, backendSecretKey := key } rs rest
    | .bindComplete => ⟨conn, rs, rest, none⟩
    | .closeComplete => readBackendMessages md5 conn rs rest
    | .commandComplete tag =>
      match rs with
      | some r =>
        ⟨conn, some { r with
          rowsAffected := commandTagRows tag
          currentResultComplete := true }, rest, none⟩
      | none => ⟨conn, none, rest, none⟩
    | .dataRow vals =>
      match rs with
      | some r =>
        ⟨conn, some { r with values := vals, hasCurrentRow := true }, rest, none⟩
      | none => ⟨conn, none, rest, some (.other "nil resultset")⟩
    | .emptyQueryResponse => readBackendMessages md5 conn rs rest
    | .errorResponse e =>
      if conn.onErrorDontRequireReadyForQuery then
        ⟨conn, rs, rest, some (.pg e)⟩
      else
        let out := readBackendMessages md5 conn none rest
        match out.err with
        | some e2 => ⟨out.conn, rs, out.rest, some e2⟩
        | none => ⟨out.conn, rs, out.rest, some (.pg e)⟩
    | .noticeResponse _ => readBackendMessages md5 conn rs rest
    | .parameterStatus _ _ =>
      -- conn_read.go readParameterStatus: the name and value are read
      -- and logged at debug level only; no connection field is updated.
      readBackendMessages md5 conn rs rest
    | .parseComplete => ⟨conn, rs, rest, none⟩
    | .readyForQuery _tx =>
      -- the transaction status byte is read, logged and discarded
      ⟨{ conn with status := .ready },
        rs.map (fun r => { r with allResultsComplete := true }), rest, none⟩
    | .rowDescription fs =>
      match rs with
      | some r =>
        ⟨conn, some { r with
          fields := fs
          values := List.replicate fs.length none
          currentResultComplete := false
          hasCurrentRow := false }, rest, none⟩
      | none => ⟨conn, none, rest, some (.other "nil resultset")⟩
    | .copyInResponse => ⟨processCopyInResponse conn, rs, rest, none⟩

/-- Result of a fetch-style operation on a ResultSet. -/
structure FetchOut where
  hasRow : Bool
  conn : Conn
  rs : RS
  rest : List BackendMsg
  err : Option Err
deriving Repr, DecidableEq

/-- `*ResultSet.fetchNext` (unnamed/part_015): return false immediately
when the current result is complete, otherwise read backend messages. -/
def fetchNext (md5 : List Nat → List Nat) (conn : Conn) (rs : RS)
    (msgs : List BackendMsg) : FetchOut :=
  if rs.currentResultComplete then ⟨false, conn, rs, msgs, none⟩
  else
    let out := readBackendMessages md5 conn (some rs) msgs
    let rs2 := out.rs.getD rs
    match out.err with
    | some e => ⟨false, out.conn, rs2, out.rest, some e⟩
    | none => ⟨!rs2.currentResultComplete, out.conn, rs2, out.rest, none⟩

/-- `*ResultSet.setCompletedOnPgsqlError` (unnamed/part_015): when the
recovered error is a backend `*Error` and no row has been produced, mark
the current result and all results as complete. -/
def setCompletedOnPgsqlError (err : Option Err) (rs : RS) : RS :=
  match err with
  | some (.pg _) =>
    if !rs.hasCurrentRow then
      { rs with currentResultComplete := true, allResultsComplete := true }
    else rs
  | _ => rs

/-- `*ResultSet.FetchNext` (unnamed/part_015): the recovered fetchNext
followed by setCompletedOnPgsqlError. -/
def FetchNext (md5 : List Nat → List Nat) (conn : Conn) (rs : RS)
    (msgs : List BackendMsg) : FetchOut :=
  let out := fetchNext md5 conn rs msgs
  { out with rs := setCompletedOnPgsqlError out.err out.rs }

/-- `*ResultSet.scan` abstracted to its argument-count check: the
per-target decoding writes through caller pointers and can only panic
with non-backend errors, which are irrelevant to the completion flags. -/
def scanCheck (argCount : Nat) (rs : RS) : Option Err :=
  if argCount ≠ rs.fields.length then some (.other "wrong argument count")
  else none

/-- `*ResultSet.scanNext` (unnamed/part_015): fetchNext, then scan the
row if one was fetched. -/
def scanNext (md5 : List Nat → List Nat) (conn : Conn) (rs : RS)
    (msgs : List BackendMsg) (argCount : Nat) : FetchOut :=
  let out := fetchNext md5 conn rs msgs
  match out.err with
  | some _ => out
  | none =>
    if !out.hasRow then out
    else
      match scanCheck argCount out.rs with
      | some e => { out with err := some e }
      | none => out

/-- `*ResultSet.ScanNext` (unnamed/part_015): the recovered scanNext
followed by setCompletedOnPgsqlError. -/
def ScanNext (md5 : List Nat → List Nat) (conn : Conn) (rs : RS)
    (msgs : List BackendMsg) (argCount : Nat) : FetchOut :=
  let out := scanNext md5 conn rs msgs argCount
  { out with rs := setCompletedOnPgsqlError out.err out.rs }

/-- A concrete backend error used by witnesses. -/
def sampleError : PgError :=
  { severity := "ERROR", code := "P0001", message := "user defined exception" }

/-! ## COPY FROM (unnamed/part_005, `copyFrom`) -/

/-- `ConnStatus.String` (unnamed/part_005). -/
def ConnStatus.str : ConnStatus → String
  | .disconnected => "Disconnected"
  | .ready => "Ready"
  | .processingQuery => "Processing Query"
  | .copy => "Bulk Copy"

/-- The error part of one `Read` call on the io.Reader source. -/
inductive RdRes where
  | ok
  | eof
  | fail (msg : String)
deriving Repr, DecidableEq

/-- One `Read` call on the source: the bytes placed into the 32 KiB
buffer (so at most 32768 of them, which the theorems assume as the
io.Reader contract) and the returned error value. -/
structure ReadEv where
  data : List Nat
  res : RdRes
deriving Repr, DecidableEq

/-- The streaming loop of `copyFrom`: read a chunk; on a non-EOF error
write a CopyFail frame carrying the error message and panic; if bytes
were read emit a CopyData frame with length 4 + nr; stop after EOF.
An exhausted event list models a source whose Read never returns. -/
def copyLoop : Conn → List ReadEv → Conn × Option Err
  | conn, [] => (conn, some (.other "source read blocked"))
  | conn, ev :: rest =>
    match ev.res with
    | .fail m =>
      ({ conn with sent := conn.sent ++ [.copyFail (5 + (strBytes m).length) m] },
        some (.other m))
    | .ok =>
      let conn2 :=
        if 0 < ev.data.length then
          { conn with sent := conn.sent ++ [.copyData (4 + ev.data.length) ev.data] }
        else conn
      copyLoop conn2 rest
    | .eof =>
      let conn2 :=
        if 0 < ev.data.length then
          { conn with sent := conn.sent ++ [.copyData (4 + ev.data.length) ev.data] }
        else conn
      (conn2, none)

/-- The CopyData/CopyFail frames the streaming loop emits for a given
source, used to state what `copyFrom` sends. -/
def chunkFrames : List ReadEv → List FrontendMsg
  | [] => []
  | ev :: rest =>
    match ev.res with
    | .fail m => [.copyFail (5 + (strBytes m).length) m]
    | .ok =>
      (if 0 < ev.data.length then [.copyData (4 + ev.data.length) ev.data] else [])
        ++ chunkFrames rest
    | .eof =>
      if 0 < ev.data.length then [.copyData (4 + ev.data.length) ev.data] else []

/-- Whether the streaming loop ends cleanly (source EOF), with a read
error, or never (source exhausted without EOF). -/
def sourceOutcome : List ReadEv → Option Err
  | [] => some (.other "source read blocked")
  | ev :: rest =>
    match ev.res with
    | .fail m => some (.other m)
    | .eof => none
    | .ok => sourceOutcome rest

/-- `*ResultSet.eatCurrentResultRows` (unnamed/part_015), with explicit
fuel standing in for the unbounded Go loop (every productive iteration
consumes at least one backend message, so `msgs.length + 1` fuel always
suffices). -/
def eatCurrentResultRows (md5 : List Nat → List Nat) :
    Nat → Conn → RS → List BackendMsg → Conn × RS × List BackendMsg × Option Err
  | 0, conn, rs, msgs => (conn, rs, msgs, some (.other "out of fuel"))
  | fuel + 1, conn, rs, msgs =>
    let out := fetchNext md5 conn rs msgs
    match out.err with
    | some e => (out.conn, out.rs, out.rest, some e)
    | none =>
      if out.hasRow then eatCurrentResultRows md5 fuel out.conn out.rs out.rest
      else (out.conn, out.rs, out.rest, none)

/-- `*ResultSet.nextResult` (unnamed/part_015): eat the rows of the
current result, read further messages unless all results are complete,
and report whether another result follows. -/
def nextResult (md5 : List Nat → List Nat) (fuel : Nat) (conn : Conn)
    (rs : RS) (msgs : List BackendMsg) :
    Bool × Conn × RS × List BackendMsg × Option Err :=
  match eatCurrentResultRows md5 fuel conn rs msgs with
  | (conn1, rs1, msgs1, some e) => (false, conn1, rs1, msgs1, some e)
  | (conn1, rs1, msgs1, none) =>
    if !rs1.allResultsComplete then
      let out := readBackendMessages md5 conn1 (some rs1) msgs1
      let rs2 := out.rs.getD rs1
      match out.err with
      | some e => (false, out.conn, rs2, out.rest, some e)
      | none => (!rs2.allResultsComplete, out.conn, rs2, out.rest, none)
    else (false, conn1, rs1, msgs1, none)

/-- `*ResultSet.eatAllResultRows` (unnamed/part_015), fueled like
eatCurrentResultRows. -/
def eatAllResultRows (md5 : List Nat → List Nat) :
    Nat → Conn → RS → List BackendMsg → Conn × RS × List BackendMsg × Option Err
  | 0, conn, rs, msgs => (conn, rs, msgs, some (.other "out of fuel"))
  | fuel + 1, conn, rs, msgs =>
    match nextResult md5 (fuel + 1) conn rs msgs with
    | (_, conn1, rs1, msgs1, some e) => (conn1, rs1, msgs1, some e)
    | (hasResult, conn1, rs1, msgs1, none) =>
      if hasResult then eatAllResultRows md5 fuel conn1 rs1 msgs1
      else (conn1, rs1, msgs1, none)

/-- `*ResultSet.close` (unnamed/part_015): eat all remaining results,
return the connection to the Ready state, and (deferred, so also on a
panic) write a Close for the statement portal if there is one. -/
def rsClose (md5 : List Nat → List Nat) (fuel : Nat) (conn : Conn) (rs : RS)
    (stmtPortal : Option String) (msgs : List BackendMsg) :
    Conn × RS × List BackendMsg × Option Err :=
  match eatAllResultRows md5 fuel conn rs msgs with
  | (conn1, rs1, msgs1, err) =>
    let conn2 := match err with
      | some _ => conn1
      | none => { conn1 with status := .ready }
    let conn3 := match stmtPortal with
      | some p => { conn2 with sent := conn2.sent ++ [.closeItem 'P' p] }
      | none => conn2
    (conn3, rs1, msgs1, err)

/-- `*Conn.copyFrom` (unnamed/part_005): send Query(command); drain
backend messages and panic unless the connection ended in the Copy
state; stream the source with `copyLoop`; on success send CopyDone,
drain the CommandComplete response into a fresh ResultSet, close it and
return its rows-affected count. -/
def copyFrom (md5 : List Nat → List Nat) (conn : Conn) (command : String)
    (src : List ReadEv) (msgs : List BackendMsg) :
    Conn × List BackendMsg × Except Err Int :=
  let conn1 := { conn with sent := conn.sent ++ [.query command] }
  let out1 := readBackendMessages md5 conn1 none msgs
  match out1.err with
  | some e => (out1.conn, out1.rest, .error e)
  | none =>
    if out1.conn.status ≠ .copy then
      (out1.conn, out1.rest,
        .error (.other ("wrong state, expected: StatusCopy, have: "
          ++ out1.conn.status.str)))
    else
      match copyLoop out1.conn src with
      | (conn2, some e) => (conn2, out1.rest, .error e)
      | (conn2, none) =>
        let conn3 := { conn2 with sent := conn2.sent ++ [.copyDone 4] }
        let out2 := readBackendMessages md5 conn3 (some newResultSet) out1.rest
        match out2.err with
        | some e => (out2.conn, out2.rest, .error e)
        | none =>
          match rsClose md5 (out2.rest.length + 1) out2.conn
            (out2.rs.getD newResultSet) none out2.rest with
          | (conn4, _rs3, msgs4, some e) => (conn4, msgs4, .error e)
          | (conn4, rs3, msgs4, none) => (conn4, msgs4, .ok rs3.rowsAffected)

/-- The backend messages the reader consumes without returning to the
caller and without writing anything: the continue cases of the
conn_read.go dispatch loop other than authentication. -/
def isContinueMsg : BackendMsg → Bool
  | .backendKeyData _ _ => true
  | .closeComplete => true
  | .emptyQueryResponse => true
  | .noticeResponse _ => true
  | .parameterStatus _ _ => true
  | _ => false

/-! ## WithTransaction (unnamed/part_005)

The transaction controller only reads and branches on the connection's
transaction-status field and issues textual commands through
`conn.execute`; the effect of each executed command (and of the body) on
that field is the server's behaviour, abstracted into an oracle. -/

/-- `TransactionStatus` (unnamed/part_005). -/
inductive TxStatus where
  | notInTransaction
  | inTransaction
  | inFailedTransaction
deriving Repr, DecidableEq

/-- `IsolationLevel` (unnamed/part_005). -/
inductive IsolationLevel where
  | readCommitted
  | serializable
deriving Repr, DecidableEq

/-- How the world outside WithTransaction behaves: the transaction
status after each executed command, the status after the body has run,
and whether the body failed (an error return and a panic are equivalent,
since `panicIfErr(f())` turns the former into the latter). -/
structure TxOracle where
  execEffect : String → TxStatus → TxStatus
  bodyEffect : TxStatus → TxStatus
  bodyErr : Option String

/-- The command issued when WithTransaction opens a transaction. -/
def beginCmd (isolation : IsolationLevel) : String :=
  "BEGIN; SET TRANSACTION ISOLATION LEVEL " ++
    (match isolation with
     | .serializable => "SERIALIZABLE"
     | .readCommitted => "READ COMMITTED") ++ ";"

/-- Result of a WithTransaction call: the commands passed to
conn.execute in order, the returned error, the final transaction
status, and whether the body was invoked. -/
structure WtResult where
  cmds : List String
  err : Option String
  finalTx : TxStatus
  bodyRan : Bool
deriving Repr, DecidableEq

/-- `*Conn.WithTransaction` (unnamed/part_005): fail immediately when
already InFailedTransaction; issue BEGIN with the isolation level when
no transaction is in progress; run the body; COMMIT only when this call
opened the transaction and the connection is InTransaction; in the
deferred handler convert an InFailedTransaction into an error and issue
ROLLBACK when an error occurred and this call opened the transaction. -/
def withTransaction (o : TxOracle) (isolation : IsolationLevel)
    (ts0 : TxStatus) : WtResult :=
  if ts0 = .inFailedTransaction then
    { cmds := [], err := some "error in transaction", finalTx := ts0,
      bodyRan := false }
  else
    let cmds1 :=
      if ts0 = .notInTransaction then [beginCmd isolation] else []
    let ts1 :=
      if ts0 = .notInTransaction then o.execEffect (beginCmd isolation) ts0
      else ts0
    let ts2 := o.bodyEffect ts1
    match o.bodyErr with
    | some e =>
      if ts0 = .notInTransaction then
        { cmds := cmds1 ++ ["ROLLBACK;"], err := some e,
          finalTx := o.execEffect "ROLLBACK;" ts2, bodyRan := true }
      else
        { cmds := cmds1, err := some e, finalTx := ts2, bodyRan := true }
    | none =>
      let cmds2 :=
        if ts0 = .notInTransaction ∧ ts2 = .inTransaction then
          cmds1 ++ ["COMMIT;"]
        else cmds1
      let ts3 :=
        if ts0 = .notInTransaction ∧ ts2 = .inTransaction then
          o.execEffect "COMMIT;" ts2
        else ts2
      if ts3 = .inFailedTransaction then
        if ts0 = .notInTransaction then
          { cmds := cmds2 ++ ["ROLLBACK;"], err := some "error in transaction",
            finalTx := o.execEffect "ROLLBACK;" ts3, bodyRan := true }
        else
          { cmds := cmds2, err := some "error in transaction", finalTx := ts3,
            bodyRan := true }
      else
        { cmds := cmds2, err := none, finalTx := ts3, bodyRan := true }

/-! ## pgpass credential lookup (unnamed/part_005, `passwordfromfile`)

The file system is abstracted into an optional (mode, content) pair:
`none` models a failing os.Stat (missing file).  The messages keep the
fixed part of the Go format strings. -/

/-- A present .pgpass file: its permission bits and raw content. -/
structure PgpassFile where
  mode : Nat
  content : List Char
deriving Repr, DecidableEq

/-- The full newline-terminated lines of the file, each including its
trailing newline, as the `ReadString('\n')` loop sees them.  A trailing
fragment without a newline is returned together with io.EOF and
discarded by the source, so it is not part of the result. -/
def pgpassLinesAux (cur : List Char) : List Char → List (List Char)
  | [] => []
  | c :: rest =>
    if c = '\n' then (cur ++ [c]) :: pgpassLinesAux [] rest
    else pgpassLinesAux (cur ++ [c]) rest

def pgpassLines (content : List Char) : List (List Char) :=
  pgpassLinesAux [] content

/-- Go `strings.Split(line, ":")`. -/
def splitColonAux (cur : List Char) : List Char → List (List Char)
  | [] => [cur]
  | c :: rest =>
    if c = ':' then cur :: splitColonAux [] rest
    else splitColonAux (cur ++ [c]) rest

def splitColon (l : List Char) : List (List Char) := splitColonAux [] l

/-- pieces[0] of a split pgpass line, as a string. -/
def phostOf (pieces : List (List Char)) : String := String.mk (pieces.getD 0 [])

/-- pieces[1]. -/
def pportOf (pieces : List (List Char)) : String := String.mk (pieces.getD 1 [])

/-- pieces[2]. -/
def pdbOf (pieces : List (List Char)) : String := String.mk (pieces.getD 2 [])

/-- pieces[3]. -/
def puserOf (pieces : List (List Char)) : String := String.mk (pieces.getD 3 [])

/-- pieces[4]: the password field (with its trailing newline when the
line has exactly five fields). -/
def ppassOf (pieces : List (List Char)) : String := String.mk (pieces.getD 4 [])

/-- One iteration of the pgpass line loop: index the first five
colon-separated pieces (an index panic if the line is shorter) and test
the host/port/database/user fields against the lookup values, `*`
matching anything; on a match return the fifth piece. -/
def pgpassMatchLine (lhostname sport dbname username : String)
    (line : List Char) : Except String (Option String) :=
  let pieces := splitColon line
  if pieces.length < 5 then .error "index out of range"
  else
    if (phostOf pieces = lhostname ∨ phostOf pieces = "*") ∧
        (pportOf pieces = "*" ∨ pportOf pieces = sport) ∧
        (pdbOf pieces = "*" ∨ pdbOf pieces = dbname) ∧
        (puserOf pieces = "*" ∨ puserOf pieces = username) then
      .ok (some (ppassOf pieces))
    else
      .ok none

/-- The line loop of `passwordfromfile`: first matching line wins,
reaching EOF yields an empty password and no error. -/
def pgpassScan (lhostname sport dbname username : String) :
    List (List Char) → Except String (String × Option String)
  | [] => .ok ("", none)
  | line :: rest =>
    match pgpassMatchLine lhostname sport dbname username line with
    | .error e => .error e
    | .ok (some p) => .ok (p, none)
    | .ok none => pgpassScan lhostname sport dbname username rest

/-- `passwordfromfile` (unnamed/part_005): empty database or user short-
circuit; host defaults to localhost and port to 5432; a failing os.Stat
(missing file) returns an error; group or world permission bits return a
permissions error; otherwise the newline-terminated lines are scanned.
The `Except` error is a panic (short line); the inner `Option String` is
the returned Go error. -/
def passwordfromfile (file : Option PgpassFile) (hostname : String)
    (port : Int) (dbname username : String) :
    Except String (String × Option String) :=
  if dbname = "" then .ok ("", none)
  else if username = "" then .ok ("", none)
  else
    let lhostname := if hostname = "" then "localhost" else hostname
    let sport := if port = 0 then "5432" else toString port
    match file with
    | none => .ok ("", some "password file is not a plain file")
    | some f =>
      if f.mode &&& 0o77 ≠ 0 then
        .ok ("", some "password file has group or world access; permissions should be u=rw (0600) or less")
      else
        pgpassScan lhostname sport dbname username (pgpassLines f.content)

/-- The match predicate of a pgpass line, as a boolean, for stating
which line the scan selects. -/
def pgpassLineMatches (lhostname sport dbname username : String)
    (line : List Char) : Bool :=
  let pieces := splitColon line
  decide ((phostOf pieces = lhostname ∨ phostOf pieces = "*") ∧
    (pportOf pieces = "*" ∨ pportOf pieces = sport) ∧
    (pdbOf pieces = "*" ∨ pdbOf pieces = dbname) ∧
    (puserOf pieces = "*" ∨ puserOf pieces = username))

/-! ## Connection pool (pool.go)

The shared pool interior is modelled as a state (created count n, idle
count, ghost count of handed-out connections, closed flag); each public
operation and each maintenance pass is one step of a labelled transition
relation, the body of its locked section.  Connect may fail, which is a
distinct step label. -/

structure PoolState where
  n : Nat
  idle : Nat
  out : Nat
  closed : Bool
deriving Repr, DecidableEq

/-- The argument validation at the top of NewPool (pool.go): minConns
and maxConns at least 1, idleTimeout at least 5; there is no check that
minConns ≤ maxConns. -/
def newPoolChecks (minConns maxConns idleTimeout : Int) : Bool :=
  1 ≤ minConns && 1 ≤ maxConns && 5 ≤ idleTimeout

/-- The pool right after a successful NewPool: minConns connections
created, all idle, none handed out. -/
def initPool (minConns : Nat) : PoolState :=
  { n := minConns, idle := minConns, out := 0, closed := false }

/-- The operation labels of the pool. -/
inductive PoolOp where
  | acquirePop
  | acquireNew
  | acquireNewFail
  | releaseConn
  | releaseClosed
  | closePool
  | maintain (expired refilled : Nat)
deriving Repr, DecidableEq

/-- One locked step of the pool (pool.go).  `acquirePop` pops an idle
connection (also the path taken after a condition-variable wait);
`acquireNew` creates a fresh connection when none is idle and n < max;
`acquireNewFail` is the same path when Connect fails (an error is
returned, nothing changes); `releaseConn` returns a previously acquired
connection to the idle list; `closePool` closes and removes every idle
entry and sets the closed flag; `maintain expired refilled` is one pass
of timeoutCloser: close `expired` idle entries whose age exceeded the
timeout, then attempt min - n refills of which `refilled` succeed. -/
inductive PoolStep (minConns maxConns : Nat) :
    PoolOp → PoolState → PoolState → Prop where
  | acquirePop (s : PoolState) (h : s.closed = false) (hidle : 0 < s.idle) :
      PoolStep minConns maxConns .acquirePop s
        { s with idle := s.idle - 1, out := s.out + 1 }
  | acquireNew (s : PoolState) (h : s.closed = false) (hidle : s.idle = 0)
      (hn : s.n < maxConns) :
      PoolStep minConns maxConns .acquireNew s
        { s with n := s.n + 1, out := s.out + 1 }
  | acquireNewFail (s : PoolState) (h : s.closed = false) (hidle : s.idle = 0)
      (hn : s.n < maxConns) :
      PoolStep minConns maxConns .acquireNewFail s s
  | releaseConn (s : PoolState) (h : s.closed = false) (hout : 0 < s.out) :
      PoolStep minConns maxConns .releaseConn s
        { s with idle := s.idle + 1, out := s.out - 1 }
  | releaseClosed (s : PoolState) (h : s.closed = true) :
      PoolStep minConns maxConns .releaseClosed s s
  | closePool (s : PoolState) (h : s.closed = false) :
      PoolStep minConns maxConns .closePool s
        { s with n := s.n - s.idle, idle := 0, closed := true }
  | maintain (s : PoolState) (expired refilled : Nat) (h : s.closed = false)
      (hk : expired ≤ s.idle)
      (hj : refilled ≤ minConns - (s.n - expired)) :
      PoolStep minConns maxConns (.maintain expired refilled) s
        { s with
          n := s.n - expired + refilled
          idle := s.idle - expired + refilled }

/-- States reachable from a fresh pool. -/
inductive PoolReach (minConns maxConns : Nat) : PoolState → Prop where
  | init : PoolReach minConns maxConns (initPool minConns)
  | step {s s' : PoolState} {op : PoolOp} :
      PoolReach minConns maxConns s → PoolStep minConns maxConns op s s' →
      PoolReach minConns maxConns s'

/-- States reachable without closing the pool and with every
maintenance refill attempt succeeding (refilled = min - (n - expired)
whenever n - expired < min). -/
inductive PoolReachOk (minConns maxConns : Nat) : PoolState → Prop where
  | init : PoolReachOk minConns maxConns (initPool minConns)
  | step {s s' : PoolState} {op : PoolOp} :
      PoolReachOk minConns maxConns s → PoolStep minConns maxConns op s s' →
      op ≠ .closePool →
      (∀ expired refilled, op = .maintain expired refilled →
        refilled = minConns - (s.n - expired)) →
      PoolReachOk minConns maxConns s'

/-- The closed-pool check at the top of Acquire (pool.go): the error
returned before anything is handed out. -/
def acquireClosedErr (s : PoolState) : Option String :=
  if s.closed then some "pool is closed" else none

/-! ## Close models (pool.go, unnamed/part_005, conn_read.go,
unnamed/part_015) -/

/-- `*Pool.Close` (pool.go): when not yet closed, remove and close every
idle entry, subtract them from n and set the closed flag, then report an
error if connections are still outstanding; when already closed, do
nothing and return nil. -/
def poolCloseFn (s : PoolState) : PoolState × Option String :=
  if s.closed then (s, none)
  else
    let s2 := { s with n := s.n - s.idle, idle := 0, closed := true }
    (s2, if 0 < s2.n then some "pool closed but connections in use" else none)

/-- The closure body of `*Conn.Close` (unnamed/part_005): on an already
disconnected connection it assigns a "connection already closed" error to
the enclosing named result and returns without touching any state;
otherwise it writes Terminate, closes the socket and enters the
Disconnected state. -/
def connCloseBody (st : ConnStatus) : ConnStatus × Option String :=
  if st = .disconnected then (st, some "connection already closed")
  else (.disconnected, none)

/-- `*Conn.Close` as executed: the method body is
`return conn.withRecover(...)`, and the return expression re-assigns the
named result with withRecover's own error, which is nil whenever the
closure did not panic — so the closure's intended error is discarded and
the caller receives nil.  (I/O panics from writeTerminate are outside
this model.) -/
def connClose (st : ConnStatus) : ConnStatus × Option String :=
  ((connCloseBody st).1, none)

/-- A Statement's closable state: its closed flag and the frontend
messages written so far. -/
structure StmtState where
  isClosed : Bool
  sent : List FrontendMsg
deriving Repr, DecidableEq

/-- `*Statement.close` (conn_read.go statement part): write Close('S',
name), set the closed flag, return nil — there is no already-closed
check, so a second Close does the same and also returns nil. -/
def stmtClose (st : StmtState) (name : String) : StmtState × Option String :=
  ({ isClosed := true, sent := st.sent ++ [.closeItem 'S' name] }, none)

/-! ## Parameter rewriting (conn_read.go statement part)

`replaceParameterName` compiles the regular expression
"[\\- |\n\r\t,)(;=+/<>][:|@]name([\\- |\n\r\t,)(;=+/<>]|$)" and splices
its non-overlapping leftmost matches; the regexp engine is embedded as
an explicit scanner over `List Char`, assuming the parameter name
contains no regexp metacharacters (true for identifier names).  The
fuel arguments (one more than the scanned length) stand in for the
engine's terminating scan loops and keep the scanners structurally
recursive and kernel-evaluable. -/

/-- The delimiter character class of the parameter pattern. -/
def isDelim (c : Char) : Bool :=
  c = '-' || c = ' ' || c = '|' || c = '\n' || c = '\r' || c = '\t' ||
  c = ',' || c = ')' || c = '(' || c = ';' || c = '=' || c = '+' ||
  c = '/' || c = '<' || c = '>'

/-- The [:|@] class preceding the name. -/
def isSigil (c : Char) : Bool := c = ':' || c = '|' || c = '@'

/-- Whether the parameter pattern matches at the head of l, and the
length it consumes: a delimiter, a sigil, the literal name, then either
another delimiter (consumed, the preferred first alternative) or the
end of the string (the $ alternative). -/
def matchLenAt (name l : List Char) : Option Nat :=
  match l with
  | d :: g :: rest =>
    if isDelim d && isSigil g && List.isPrefixOf name rest then
      match rest.drop name.length with
      | [] => some (2 + name.length)
      | c :: _ => if isDelim c then some (2 + name.length + 1) else none
    else none
  | _ => none

/-- `regexp.FindAllStringIndex` for the parameter pattern: the
non-overlapping leftmost matches as (start, end) index pairs; the scan
resumes at the end of each match. -/
def findMatchesAux (name : List Char) :
    Nat → Nat → List Char → List (Nat × Nat)
  | 0, _, _ => []
  | _ + 1, _, [] => []
  | fuel + 1, i, l@(_ :: tail) =>
    match matchLenAt name l with
    | some len => (i, i + len) :: findMatchesAux name fuel (i + len) (l.drop len)
    | none => findMatchesAux name fuel (i + 1) tail

def findMatches (name s : List Char) : List (Nat × Nat) :=
  findMatchesAux name (s.length + 1) 0 s

/-- Go slice s[a:b]. -/
def goSlice (s : List Char) (a b : Nat) : List Char := (s.take b).drop a

/-- The writing loop of `replaceParameterNameInSubstring`: prevMatchEnd
starts at 1; each match appends the text from prevMatchEnd - 1 up to and
including the match's leading delimiter and then the replacement; after
the loop the text from prevMatchEnd - 1 on is appended when a match
occurred, the whole segment otherwise. -/
def replaceInSubstringGo (s new : List Char) :
    Nat → List (Nat × Nat) → List Char
  | prevMatchEnd, [] =>
    if 1 < prevMatchEnd then s.drop (prevMatchEnd - 1) else s
  | prevMatchEnd, (matchStart, matchEnd) :: rest =>
    goSlice s (prevMatchEnd - 1) (matchStart + 1) ++ new
      ++ replaceInSubstringGo s new matchEnd rest

/-- `replaceParameterNameInSubstring` (conn_read.go statement part). -/
def replaceParameterNameInSubstring (s new name : List Char) : List Char :=
  replaceInSubstringGo s new 1 (findMatches name s)

/-- quoteRegExp "['][^']*[']": the non-overlapping single-quote spans. -/
def findQuotesAux : Nat → Nat → List Char → List (Nat × Nat)
  | 0, _, _ => []
  | _ + 1, _, [] => []
  | fuel + 1, i, c :: rest =>
    if c = '\'' then
      match rest.findIdx? (fun x => x = '\'') with
      | some j =>
        (i, i + j + 2) :: findQuotesAux fuel (i + j + 2) (rest.drop (j + 1))
      | none => []
    else findQuotesAux fuel (i + 1) rest

def findQuotes (s : List Char) : List (Nat × Nat) :=
  findQuotesAux (s.length + 1) 0 s

/-- The quote loop of `replaceParameterName`: rewrite each segment
between quote spans in isolation, copy each quoted span verbatim, and
rewrite the tail after the last quote (with no quotes the whole command
is rewritten; the two final branches of the Go code coincide then). -/
def replaceQuoteSegs (command name new : List Char) :
    Nat → List (Nat × Nat) → List Char
  | prevQuoteEnd, [] =>
    replaceParameterNameInSubstring (command.drop prevQuoteEnd) new name
  | prevQuoteEnd, (quoteStart, quoteEnd) :: rest =>
    replaceParameterNameInSubstring (goSlice command prevQuoteEnd quoteStart)
        new name
      ++ goSlice command quoteStart quoteEnd
      ++ replaceQuoteSegs command name new quoteEnd rest

/-- `replaceParameterName` (conn_read.go statement part): old is the
parameter name including its sigil, the pattern is built from old[1:]. -/
def replaceParameterName (command old new : List Char) : List Char :=
  replaceQuoteSegs command (old.drop 1) new 0 (findQuotes command)

/-- A statement parameter as the rewriter sees it: the declared name
(with its @ or : sigil) and the optional custom type name. -/
structure Param where
  name : String
  customTypeName : String
deriving Repr, DecidableEq

/-- The replacement text for parameter i (0-based): the 1-based
positional placeholder, with a ::customTypeName cast appended for
custom-typed parameters. -/
def paramSubst (i : Nat) (p : Param) : String :=
  "$" ++ toString (i + 1) ++
    (if p.customTypeName = "" then "" else "::" ++ p.customTypeName)

def adjustCommandAux : List Char → Nat → List Param → List Char
  | cmd, _, [] => cmd
  | cmd, i, p :: rest =>
    adjustCommandAux
      (replaceParameterName cmd p.name.data (paramSubst i p).data) (i + 1) rest

/-- `adjustCommand` (conn_read.go statement part): fold the rewrite over
the parameters in order. -/
def adjustCommand (command : String) (params : List Param) : String :=
  String.mk (adjustCommandAux command.data 0 params)

/-- Definition following the claim's words, for comparison with the
source rewriter: every occurrence of @name or :name outside
single-quoted literals is replaced, wherever it occurs. -/
def specReplaceAux (name new : List Char) : Nat → Bool → List Char → List Char
  | 0, _, l => l
  | _ + 1, _, [] => []
  | fuel + 1, inQuote, c :: rest =>
    if c = '\'' then c :: specReplaceAux name new fuel (!inQuote) rest
    else if inQuote then c :: specReplaceAux name new fuel inQuote rest
    else if (c = '@' || c = ':') && List.isPrefixOf name rest then
      new ++ specReplaceAux name new fuel inQuote (rest.drop name.length)
    else c :: specReplaceAux name new fuel inQuote rest

def specAdjustAux : List Char → Nat → List Param → List Char
  | cmd, _, [] => cmd
  | cmd, i, p :: rest =>
    specAdjustAux
      (specReplaceAux (p.name.data.drop 1) (paramSubst i p).data
        (cmd.length + 1) false cmd) (i + 1) rest

/-- The claim-side rewriter: replace every occurrence of each
parameter's @name / :name outside single-quoted literals. -/
def specAdjust (command : String) (params : List Param) : String :=
  String.mk (specAdjustAux command.data 0 params)

/-- Command family quantified over by the rewrite theorem: arbitrary text
interleaved with any number of occurrences of the parameter pattern, each
occurrence bracketed by its own leading and trailing separator. Block
(d, e, gap) contributes the occurrence d g name e followed by the text gap. -/
def buildCmd (g : Char) (name : List Char) :
    List Char → List (Char × Char × List Char) → List Char
  | pre, [] => pre
  | pre, (d, e, gap) :: rest =>
    pre ++ d :: g :: name ++ e :: buildCmd g name gap rest

/-- The expected rewrite of `buildCmd`: every occurrence replaced by new,
both separators kept. -/
def buildOut (new : List Char) :
    List Char → List (Char × Char × List Char) → List Char
  | pre, [] => pre
  | pre, (d, e, gap) :: rest =>
    pre ++ d :: new ++ e :: buildOut new gap rest

/-- The expected scanner output on `buildCmd`: one (start, end) span per
occurrence, each of length name.length + 3. -/
def buildMatches (nl : Nat) :
    Nat → List Char → List (Char × Char × List Char) → List (Nat × Nat)
  | _, _, [] => []
  | i, pre, (_, _, gap) :: rest =>
    (i + pre.length, i + pre.length + nl + 3) ::
      buildMatches nl (i + pre.length + nl + 3) gap rest

/-- Text that contains no parameter sigil and no single quote. -/
abbrev sigilFree (seg : List Char) : Prop :=
  ∀ c ∈ seg, isSigil c = false ∧ c ≠ '\''

/-- Identifier characters of a parameter name: neither separators, nor
sigils, nor single quotes. -/
abbrev wordChars (name : List Char) : Prop :=
  ∀ c ∈ name, isDelim c = false ∧ isSigil c = false ∧ c ≠ '\''

/-- Every block carries separator characters around its occurrence and
sigil-free following text. -/
abbrev blocksSep (blocks : List (Char × Char × List Char)) : Prop :=
  ∀ b ∈ blocks, isDelim b.1 = true ∧ isDelim b.2.1 = true ∧ sigilFree b.2.2

/-! ## Theorems -/

/-- C10: for every column whose value decodes to a negative w-bit signed
integer v, the unsigned accessors Uint16, Uint32, Uint64 and Uint return
the two's-complement reinterpretation v mod 2^w, without any range check
and without an error. -/
theorem uint_accessors_cast_mod (rs : RS) (ord : Nat) :
    (∀ v : Int, rsInt16 rs ord = .ok (some v) → v < 0 →
      rsUint16 rs ord = .ok (some (v % 2 ^ 16)) ∧ 0 ≤ v % 2 ^ 16) ∧
    (∀ v : Int, rsInt32 rs ord = .ok (some v) → v < 0 →
      rsUint32 rs ord = .ok (some (v % 2 ^ 32)) ∧ 0 ≤ v % 2 ^ 32) ∧
    (∀ v : Int, rsInt64 rs ord = .ok (some v) → v < 0 →
      rsUint64 rs ord = .ok (some (v % 2 ^ 64)) ∧ 0 ≤ v % 2 ^ 64) ∧
    (∀ v : Int, rsInt32 rs ord = .ok (some v) → v < 0 →
      rsUint rs ord = .ok (some (v % 2 ^ 32))) := by
  refine ⟨?_, ?_, ?_, ?_⟩ <;> intro v h hneg
  · exact ⟨by simp [rsUint16, h, Except.map, toUnsigned], Int.emod_nonneg v (by norm_num)⟩
  · exact ⟨by simp [rsUint32, h, Except.map, toUnsigned], Int.emod_nonneg v (by norm_num)⟩
  · exact ⟨by simp [rsUint64, h, Except.map, toUnsigned], Int.emod_nonneg v (by norm_num)⟩
  · simp [rsUint, rsUint32, h, Except.map, toUnsigned]

/-- Witness for C10: on the concrete value "-1" the signed accessor
yields -1 and the unsigned accessor yields 65535 = (-1) mod 2^16. -/
theorem uint_accessors_cast_mod_witness :
    rsUint16 sampleNegRS 0 = .ok (some 65535) := by
  have h : rsInt16 sampleNegRS 0 = .ok (some (-1)) := by rfl
  have := (uint_accessors_cast_mod sampleNegRS 0).1 (-1) h (by norm_num)
  simpa using this.1

/-- The bytes of a concatenation are the concatenated bytes. -/
theorem strBytes_append (a b : String) :
    strBytes (a ++ b) = strBytes a ++ strBytes b := by
  simp [strBytes]

/-- C7: on an AuthenticationMD5Password request the client replies with a
PasswordMessage whose payload is "md5" ++ hex(md5(hex(md5(password ++ user))
++ salt)); any authentication type other than Ok (0) and MD5 (5) makes the
connection attempt fail with an unsupported-authentication error.  (The
4-byte salt and the message framing are abstracted into the structured
message; the salt argument is the one read from the wire.) -/
theorem md5_password_reply (md5 : List Nat → List Nat)
    (password user : String) (salt : List Nat) :
    (readAuthenticationRequest md5 password user 5 salt =
      .ok (some (.passwordMessage
        (4 + (strBytes ("md5" ++ hexEncode (md5 (strBytes
          (hexEncode (md5 (strBytes (password ++ user)))) ++ salt)))).length + 1)
        ("md5" ++ hexEncode (md5 (strBytes
          (hexEncode (md5 (strBytes (password ++ user)))) ++ salt)))))) ∧
    (∀ t : Int, t ≠ 0 → t ≠ 5 →
      readAuthenticationRequest md5 password user t salt =
        .error ("unsupported authentication type: " ++ toString t)) := by
  constructor
  · simp [readAuthenticationRequest, Md5Hasher.new, Md5Hasher.write,
      Md5Hasher.sum, Md5Hasher.reset, strBytes_append]
  · intro t h0 h5
    simp [readAuthenticationRequest, h0, h5]

/-- Witness for C7: concrete evaluation with the identity in place of the
external MD5 digest, password "pw", user "u", salt [1,2,3,4] and the
unsupported cleartext type 3. -/
theorem md5_password_reply_witness :
    readAuthenticationRequest (fun bs => bs) "pw" "u" 5 [1, 2, 3, 4] =
      .ok (some (.passwordMessage
        (4 + (strBytes ("md5" ++ hexEncode ((fun bs => bs) (strBytes
          (hexEncode ((fun bs => bs) (strBytes ("pw" ++ "u")))) ++ [1, 2, 3, 4])))).length + 1)
        ("md5" ++ hexEncode ((fun bs => bs) (strBytes
          (hexEncode ((fun bs => bs) (strBytes ("pw" ++ "u")))) ++ [1, 2, 3, 4]))))) ∧
    readAuthenticationRequest (fun bs => bs) "pw" "u" 3 [1, 2, 3, 4] =
      .error ("unsupported authentication type: " ++ toString (3 : Int)) :=
  ⟨(md5_password_reply (fun bs => bs) "pw" "u" [1, 2, 3, 4]).1,
   (md5_password_reply (fun bs => bs) "pw" "u" [1, 2, 3, 4]).2 3
     (by decide) (by decide)⟩

theorem setCompleted_hasCurrentRow (err : Option Err) (rs : RS) :
    (setCompletedOnPgsqlError err rs).hasCurrentRow = rs.hasCurrentRow := by
  rcases err with _ | e
  · rfl
  · rcases e with e | m
    · simp only [setCompletedOnPgsqlError]
      split <;> rfl
    · rfl

theorem setCompleted_pg_flags (e : PgError) (rs : RS)
    (h : rs.hasCurrentRow = false) :
    setCompletedOnPgsqlError (some (.pg e)) rs =
      { rs with currentResultComplete := true, allResultsComplete := true } := by
  simp [setCompletedOnPgsqlError, h]

theorem fetchNext_of_complete (md5 : List Nat → List Nat) (conn : Conn)
    (rs : RS) (msgs : List BackendMsg) (h : rs.currentResultComplete = true) :
    fetchNext md5 conn rs msgs = ⟨false, conn, rs, msgs, none⟩ := by
  simp [fetchNext, h]

theorem FetchNext_of_complete (md5 : List Nat → List Nat) (conn : Conn)
    (rs : RS) (msgs : List BackendMsg) (h : rs.currentResultComplete = true) :
    FetchNext md5 conn rs msgs = ⟨false, conn, rs, msgs, none⟩ := by
  simp [FetchNext, fetchNext_of_complete md5 conn rs msgs h, setCompletedOnPgsqlError]

theorem ScanNext_of_complete (md5 : List Nat → List Nat) (conn : Conn)
    (rs : RS) (msgs : List BackendMsg) (k : Nat)
    (h : rs.currentResultComplete = true) :
    ScanNext md5 conn rs msgs k = ⟨false, conn, rs, msgs, none⟩ := by
  simp [ScanNext, scanNext, fetchNext_of_complete md5 conn rs msgs h,
    setCompletedOnPgsqlError]

/-- C8: whenever FetchNext or ScanNext returns a backend (PostgreSQL)
error and no row has been produced for the current result, the ResultSet
sets both its current-result-complete and all-results-complete flags, so
that every subsequent FetchNext or ScanNext returns false cleanly with
no message read from the stream. -/
theorem fetch_error_marks_complete (md5 : List Nat → List Nat)
    (conn : Conn) (rs : RS) (msgs : List BackendMsg) (k : Nat) :
    (∀ e, (FetchNext md5 conn rs msgs).err = some (.pg e) →
      (FetchNext md5 conn rs msgs).rs.hasCurrentRow = false →
      (FetchNext md5 conn rs msgs).rs.currentResultComplete = true ∧
      (FetchNext md5 conn rs msgs).rs.allResultsComplete = true ∧
      (∀ conn2 msgs2,
        FetchNext md5 conn2 (FetchNext md5 conn rs msgs).rs msgs2 =
          ⟨false, conn2, (FetchNext md5 conn rs msgs).rs, msgs2, none⟩ ∧
        ScanNext md5 conn2 (FetchNext md5 conn rs msgs).rs msgs2 k =
          ⟨false, conn2, (FetchNext md5 conn rs msgs).rs, msgs2, none⟩)) ∧
    (∀ e, (ScanNext md5 conn rs msgs k).err = some (.pg e) →
      (ScanNext md5 conn rs msgs k).rs.hasCurrentRow = false →
      (ScanNext md5 conn rs msgs k).rs.currentResultComplete = true ∧
      (ScanNext md5 conn rs msgs k).rs.allResultsComplete = true ∧
      (∀ conn2 msgs2,
        FetchNext md5 conn2 (ScanNext md5 conn rs msgs k).rs msgs2 =
          ⟨false, conn2, (ScanNext md5 conn rs msgs k).rs, msgs2, none⟩ ∧
        ScanNext md5 conn2 (ScanNext md5 conn rs msgs k).rs msgs2 k =
          ⟨false, conn2, (ScanNext md5 conn rs msgs k).rs, msgs2, none⟩)) := by
  constructor
  · intro e he hrow
    have herr : (fetchNext md5 conn rs msgs).err = some (.pg e) := by
      simpa [FetchNext] using he
    have hrow0 : (fetchNext md5 conn rs msgs).rs.hasCurrentRow = false := by
      have hp := setCompleted_hasCurrentRow (fetchNext md5 conn rs msgs).err
        (fetchNext md5 conn rs msgs).rs
      simp only [FetchNext] at hrow
      rw [hp] at hrow
      exact hrow
    have hout : (FetchNext md5 conn rs msgs).rs =
        { (fetchNext md5 conn rs msgs).rs with
          currentResultComplete := true, allResultsComplete := true } := by
      simp only [FetchNext]
      rw [herr, setCompleted_pg_flags e _ hrow0]
    refine ⟨by rw [hout], by rw [hout], ?_⟩
    intro conn2 msgs2
    have hc : (FetchNext md5 conn rs msgs).rs.currentResultComplete = true := by
      rw [hout]
    exact ⟨FetchNext_of_complete md5 conn2 _ msgs2 hc,
      ScanNext_of_complete md5 conn2 _ msgs2 k hc⟩
  · intro e he hrow
    have herr : (scanNext md5 conn rs msgs k).err = some (.pg e) := by
      simpa [ScanNext] using he
    have herr0 : (fetchNext md5 conn rs msgs).err = some (.pg e) := by
      rcases hF : fetchNext md5 conn rs msgs with ⟨hR, c2, r2, m2, er⟩
      rcases er with _ | er
      · exfalso
        cases hR
        · simp [scanNext, hF] at herr
        · by_cases hk : k = r2.fields.length
          · simp [scanNext, hF, scanCheck, hk] at herr
          · simp [scanNext, hF, scanCheck, hk] at herr
      · simpa [scanNext, hF] using herr
    have hrsEq : (scanNext md5 conn rs msgs k).rs =
        (fetchNext md5 conn rs msgs).rs := by
      rcases hF : fetchNext md5 conn rs msgs with ⟨hR, c2, r2, m2, er⟩
      rcases er with _ | er
      · cases hR
        · simp [scanNext, hF]
        · by_cases hk : k = r2.fields.length
          · simp [scanNext, hF, scanCheck, hk]
          · simp [scanNext, hF, scanCheck, hk]
      · simp [scanNext, hF]
    have hrow0 : (fetchNext md5 conn rs msgs).rs.hasCurrentRow = false := by
      have hp := setCompleted_hasCurrentRow (scanNext md5 conn rs msgs k).err
        (scanNext md5 conn rs msgs k).rs
      simp only [ScanNext] at hrow
      rw [hp, hrsEq] at hrow
      exact hrow
    have hout : (ScanNext md5 conn rs msgs k).rs =
        { (fetchNext md5 conn rs msgs).rs with
          currentResultComplete := true, allResultsComplete := true } := by
      simp only [ScanNext]
      rw [herr, hrsEq, setCompleted_pg_flags e _ hrow0]
    refine ⟨by rw [hout], by rw [hout], ?_⟩
    intro conn2 msgs2
    have hc : (ScanNext md5 conn rs msgs k).rs.currentResultComplete = true := by
      rw [hout]
    exact ⟨FetchNext_of_complete md5 conn2 _ msgs2 hc,
      ScanNext_of_complete md5 conn2 _ msgs2 k hc⟩

/-- Witness for C8: on the stream [ErrorResponse, ReadyForQuery] a fresh
ResultSet gets a backend error from FetchNext with no row produced; the
theorem then yields the completion flags. -/
theorem fetch_error_marks_complete_witness :
    (FetchNext (fun bs => bs) connInitial newResultSet
      [.errorResponse sampleError, .readyForQuery 73]).rs.currentResultComplete = true ∧
    (FetchNext (fun bs => bs) connInitial newResultSet
      [.errorResponse sampleError, .readyForQuery 73]).rs.allResultsComplete = true := by
  have h := (fetch_error_marks_complete (fun bs => bs) connInitial newResultSet
    [.errorResponse sampleError, .readyForQuery 73] 0).1 sampleError
    (by decide) (by decide)
  exact ⟨h.1, h.2.1⟩

/-- C2 (code-level behaviour): a ParameterStatus message is consumed by
the reader without any change to the connection: the (name, value) pair
is never recorded in the runtime-parameter keyword map (so a later
RuntimeParameter(name) returns ok = false for names not already in the
map), and the time formats are never recomputed, even though
updateTimeFormats would derive them from a recorded DateStyle. -/
theorem parameterStatus_not_recorded (md5 : List Nat → List Nat)
    (conn : Conn) (rs : Option RS) (n v : String) (rest : List BackendMsg) :
    readBackendMessages md5 conn rs (.parameterStatus n v :: rest) =
      readBackendMessages md5 conn rs rest ∧
    (readBackendMessages md5 connInitial none
      [.parameterStatus "DateStyle" "ISO", .readyForQuery 73]).conn.runtimeParameters
      = [] ∧
    runtimeParameter (readBackendMessages md5 connInitial none
      [.parameterStatus "DateStyle" "ISO", .readyForQuery 73]).conn "DateStyle"
      = none ∧
    (readBackendMessages md5 connInitial none
      [.parameterStatus "DateStyle" "ISO", .readyForQuery 73]).conn.dateFormat
      = "" ∧
    (updateTimeFormats
      { connInitial with runtimeParameters := [("DateStyle", "ISO")] }).dateFormat
      = "2006-01-02" := by
  refine ⟨rfl, rfl, ?_, rfl, ?_⟩
  · simp [readBackendMessages, connInitial, runtimeParameter]
  · simp [updateTimeFormats, runtimeParameter, connInitial]

theorem reader_continue (md5 : List Nat → List Nat) (noise : List BackendMsg)
    (h : ∀ m ∈ noise, isContinueMsg m = true) (conn : Conn) (rs : Option RS)
    (ms : List BackendMsg) :
    ∃ conn2, readBackendMessages md5 conn rs (noise ++ ms) =
        readBackendMessages md5 conn2 rs ms ∧
      conn2.sent = conn.sent ∧ conn2.status = conn.status ∧
      conn2.onErrorDontRequireReadyForQuery =
        conn.onErrorDontRequireReadyForQuery := by
  induction noise generalizing conn with
  | nil => exact ⟨conn, rfl, rfl, rfl, rfl⟩
  | cons m noise ih =>
    have hm := h m (by simp)
    have hrest : ∀ x ∈ noise, isContinueMsg x = true := fun x hx =>
      h x (by simp [hx])
    cases m with
    | backendKeyData pid key =>
      obtain ⟨c2, he, h1, h2, h3⟩ := ih hrest
        { conn with backendPID := pid, backendSecretKey := key }
      exact ⟨c2, by simpa [readBackendMessages] using he, h1, h2, h3⟩
    | closeComplete =>
      obtain ⟨c2, he, h1, h2, h3⟩ := ih hrest conn
      exact ⟨c2, by simpa [readBackendMessages] using he, h1, h2, h3⟩
    | emptyQueryResponse =>
      obtain ⟨c2, he, h1, h2, h3⟩ := ih hrest conn
      exact ⟨c2, by simpa [readBackendMessages] using he, h1, h2, h3⟩
    | noticeResponse e =>
      obtain ⟨c2, he, h1, h2, h3⟩ := ih hrest conn
      exact ⟨c2, by simpa [readBackendMessages] using he, h1, h2, h3⟩
    | parameterStatus n v =>
      obtain ⟨c2, he, h1, h2, h3⟩ := ih hrest conn
      exact ⟨c2, by simpa [readBackendMessages] using he, h1, h2, h3⟩
    | authRequest t salt => simp [isContinueMsg] at hm
    | bindComplete => simp [isContinueMsg] at hm
    | commandComplete tag => simp [isContinueMsg] at hm
    | dataRow vals => simp [isContinueMsg] at hm
    | errorResponse e => simp [isContinueMsg] at hm
    | parseComplete => simp [isContinueMsg] at hm
    | readyForQuery t => simp [isContinueMsg] at hm
    | rowDescription fs => simp [isContinueMsg] at hm
    | copyInResponse => simp [isContinueMsg] at hm

theorem copyLoop_eq (src : List ReadEv) (conn : Conn) :
    copyLoop conn src =
      ({ conn with sent := conn.sent ++ chunkFrames src }, sourceOutcome src) := by
  induction src generalizing conn with
  | nil => simp [copyLoop, chunkFrames, sourceOutcome]
  | cons ev rest ih =>
    rcases ev with ⟨data, res⟩
    cases res with
    | fail m => simp [copyLoop, chunkFrames, sourceOutcome]
    | ok =>
      by_cases hd : 0 < data.length <;>
        simp [copyLoop, chunkFrames, sourceOutcome, hd, ih]
    | eof =>
      by_cases hd : 0 < data.length <;>
        simp [copyLoop, chunkFrames, sourceOutcome, hd]

/-- C1: CopyFrom sends Query(command); after the drain reaches the Copy
state it streams the source in CopyData frames of at most 32 KiB each
(given the io.Reader contract that a Read fills at most the 32 KiB
buffer); a failing source read makes it send CopyFail carrying the error
message and propagate the failure; on source EOF it sends CopyDone,
drains to CommandComplete and returns the rows-affected count parsed
from the command tag. -/
theorem copyFrom_spec (md5 : List Nat → List Nat) (conn : Conn)
    (command : String) (src : List ReadEv) (noise : List BackendMsg)
    (tag : String) (t : Nat) (restAfter : List BackendMsg)
    (hnoise : ∀ m ∈ noise, isContinueMsg m = true)
    (hsize : ∀ ev ∈ src, ev.data.length ≤ 32768) :
    (∀ len payload, FrontendMsg.copyData len payload ∈ chunkFrames src →
      payload.length ≤ 32768 ∧ len = 4 + payload.length) ∧
    (∀ good d m, src = good ++ [⟨d, .fail m⟩] → (∀ ev ∈ good, ev.res = .ok) →
      chunkFrames src = chunkFrames good
        ++ [.copyFail (5 + (strBytes m).length) m] ∧
      sourceOutcome src = some (.other m)) ∧
    (∀ m, sourceOutcome src = some (.other m) →
      ∃ connF, copyFrom md5 conn command src
          (noise ++ .copyInResponse :: restAfter) =
          (connF, restAfter, .error (.other m)) ∧
        connF.sent = conn.sent ++ [.query command] ++ chunkFrames src) ∧
    (sourceOutcome src = none →
      ∃ connF, copyFrom md5 conn command src
          (noise ++ .copyInResponse ::
            .commandComplete tag :: .readyForQuery t :: restAfter) =
          (connF, restAfter, .ok (commandTagRows tag)) ∧
        connF.sent = conn.sent ++ [.query command] ++ chunkFrames src
          ++ [.copyDone 4] ∧
        connF.status = .ready) := by
  refine ⟨?_, ?_, ?_, ?_⟩
  · -- frame size bound
    intro len payload hmem
    induction src with
    | nil => simp [chunkFrames] at hmem
    | cons ev rest ih =>
      have hev := hsize ev (by simp)
      have hrest : ∀ e ∈ rest, e.data.length ≤ 32768 := fun e he =>
        hsize e (by simp [he])
      rcases ev with ⟨data, res⟩
      cases res with
      | fail m => simp [chunkFrames] at hmem
      | ok =>
        by_cases hd : 0 < data.length
        · simp [chunkFrames, hd] at hmem
          rcases hmem with ⟨h1, h2⟩ | hmem
          · subst h1; subst h2; exact ⟨hev, rfl⟩
          · exact ih hrest hmem
        · simp [chunkFrames, hd] at hmem
          exact ih hrest hmem
      | eof =>
        by_cases hd : 0 < data.length
        · simp [chunkFrames, hd] at hmem
          obtain ⟨h1, h2⟩ := hmem
          subst h1; subst h2; exact ⟨hev, rfl⟩
        · simp [chunkFrames, hd] at hmem
  · -- shape of a failing stream
    intro good d m hsrc hgood
    subst hsrc
    clear hsize
    induction good with
    | nil => simp [chunkFrames, sourceOutcome]
    | cons ev rest ih =>
      have hev := hgood ev (by simp)
      have hrest : ∀ e ∈ rest, e.res = .ok := fun e he => hgood e (by simp [he])
      obtain ⟨ih1, ih2⟩ := ih hrest
      rcases ev with ⟨data, res⟩
      simp only at hev
      subst hev
      constructor
      · simp [chunkFrames, ih1]
      · simpa [sourceOutcome] using ih2
  · -- failing source: CopyFail sent, failure propagated
    intro m hout
    obtain ⟨conn2, he, hsent, hstat, honerr⟩ := reader_continue md5 noise hnoise
      { conn with sent := conn.sent ++ [.query command] } none
      (.copyInResponse :: restAfter)
    have hdrain : readBackendMessages md5
        { conn with sent := conn.sent ++ [.query command] } none
        (noise ++ .copyInResponse :: restAfter) =
        ⟨{ conn2 with status := .copy }, none, restAfter, none⟩ := by
      rw [he]; rfl
    refine ⟨{ conn2 with
      status := .copy
      sent := conn2.sent ++ chunkFrames src }, ?_, ?_⟩
    · simp only [copyFrom, hdrain]
      rw [copyLoop_eq, hout]
      rfl
    · simp [hsent]
  · -- successful source: CopyDone sent, rows-affected returned
    intro hout
    obtain ⟨conn2, he, hsent, hstat, honerr⟩ := reader_continue md5 noise hnoise
      { conn with sent := conn.sent ++ [.query command] } none
      (.copyInResponse :: .commandComplete tag :: .readyForQuery t :: restAfter)
    have hdrain : readBackendMessages md5
        { conn with sent := conn.sent ++ [.query command] } none
        (noise ++ .copyInResponse ::
          .commandComplete tag :: .readyForQuery t :: restAfter) =
        ⟨{ conn2 with status := .copy }, none,
          .commandComplete tag :: .readyForQuery t :: restAfter, none⟩ := by
      rw [he]; rfl
    refine ⟨{ conn2 with
      status := .ready
      sent := (conn2.sent ++ chunkFrames src) ++ [.copyDone 4] }, ?_, ?_, rfl⟩
    · simp only [copyFrom, hdrain]
      rw [copyLoop_eq, hout]
      simp only [readBackendMessages, rsClose, eatAllResultRows, nextResult,
        eatCurrentResultRows, fetchNext, newResultSet, commandTagRows,
        List.length_cons]
      rfl
    · simp [hsent, List.append_assoc]

/-- Witness for C1: a two-chunk source ending in EOF, streamed against
the backend replies ParameterStatus, CopyInResponse, CommandComplete
"COPY 3", ReadyForQuery. -/
theorem copyFrom_spec_witness :
    ∃ connF, copyFrom (fun bs => bs) connInitial "COPY t FROM STDIN;"
        [⟨[1, 2, 3], .ok⟩, ⟨[], .eof⟩]
        ([.parameterStatus "TimeZone" "UTC"] ++ .copyInResponse ::
          .commandComplete "COPY 3" :: .readyForQuery 73 :: []) =
        (connF, [], .ok (commandTagRows "COPY 3")) ∧
      connF.sent = connInitial.sent ++ [.query "COPY t FROM STDIN;"]
        ++ chunkFrames [⟨[1, 2, 3], .ok⟩, ⟨[], .eof⟩] ++ [.copyDone 4] ∧
      connF.status = .ready :=
  (copyFrom_spec (fun bs => bs) connInitial "COPY t FROM STDIN;"
    [⟨[1, 2, 3], .ok⟩, ⟨[], .eof⟩] [.parameterStatus "TimeZone" "UTC"]
    "COPY 3" 73 [] (by decide) (by decide)).2.2.2 (by decide)

theorem beginCmd_ne (isolation : IsolationLevel) :
    beginCmd isolation ≠ "COMMIT;" ∧ beginCmd isolation ≠ "ROLLBACK;" := by
  cases isolation <;> exact ⟨by decide, by decide⟩

/-- C6: WithTransaction returns an error immediately, without calling f,
when the transaction status is InFailedTransaction; when no transaction
is in progress it first executes BEGIN; SET TRANSACTION ISOLATION LEVEL
{READ COMMITTED | SERIALIZABLE};; it executes ROLLBACK only if it opened
the transaction and f failed or the deferred check found the connection
InFailedTransaction; and it executes COMMIT only if it opened the
transaction and f did not fail. -/
theorem withTransaction_spec (o : TxOracle) (isolation : IsolationLevel)
    (ts0 : TxStatus) :
    (ts0 = .inFailedTransaction →
      (withTransaction o isolation ts0).err ≠ none ∧
      (withTransaction o isolation ts0).bodyRan = false ∧
      (withTransaction o isolation ts0).cmds = []) ∧
    (ts0 ≠ .inFailedTransaction →
      (withTransaction o isolation ts0).bodyRan = true) ∧
    (ts0 = .notInTransaction →
      (withTransaction o isolation ts0).cmds.head? = some (beginCmd isolation)) ∧
    ("ROLLBACK;" ∈ (withTransaction o isolation ts0).cmds →
      ts0 = .notInTransaction ∧
      (o.bodyErr ≠ none ∨
        (withTransaction o isolation ts0).err = some "error in transaction")) ∧
    ("COMMIT;" ∈ (withTransaction o isolation ts0).cmds →
      ts0 = .notInTransaction ∧ o.bodyErr = none) := by
  have hbc := beginCmd_ne isolation
  refine ⟨?_, ?_, ?_, ?_, ?_⟩
  · intro h
    subst h
    exact ⟨by simp [withTransaction], by simp [withTransaction],
      by simp [withTransaction]⟩
  · intro h
    rcases hb : o.bodyErr with _ | e <;> cases ts0 <;>
      simp [withTransaction, hb] at h ⊢ <;> split_ifs <;> rfl
  · intro h
    subst h
    rcases hb : o.bodyErr with _ | e <;> simp [withTransaction, hb] <;>
      split_ifs <;> simp
  · intro hmem
    cases ts0 with
    | notInTransaction =>
      refine ⟨rfl, ?_⟩
      rcases hb : o.bodyErr with _ | e
      · by_cases h2 : o.bodyEffect (o.execEffect (beginCmd isolation)
            .notInTransaction) = .inTransaction
        · by_cases h3 : o.execEffect "COMMIT;" TxStatus.inTransaction
              = TxStatus.inFailedTransaction
          · refine Or.inr ?_
            simp [withTransaction, hb, h2, h3]
          · simp [withTransaction, hb, h2, h3, Ne.symm hbc.2] at hmem
        · by_cases h3 : o.bodyEffect (o.execEffect (beginCmd isolation)
              .notInTransaction) = .inFailedTransaction
          · refine Or.inr ?_
            simp [withTransaction, hb, h2, h3]
          · simp [withTransaction, hb, h2, h3, Ne.symm hbc.2] at hmem
      · exact Or.inl (by simp)
    | inTransaction =>
      exfalso
      rcases hb : o.bodyErr with _ | e <;>
        simp [withTransaction, hb] at hmem <;> split_ifs at hmem <;>
          simp at hmem
    | inFailedTransaction =>
      exfalso
      simp [withTransaction] at hmem
  · intro hmem
    cases ts0 with
    | notInTransaction =>
      rcases hb : o.bodyErr with _ | e
      · exact ⟨rfl, rfl⟩
      · simp [withTransaction, hb, Ne.symm hbc.1] at hmem
    | inTransaction =>
      exfalso
      rcases hb : o.bodyErr with _ | e <;>
        simp [withTransaction, hb] at hmem <;> split_ifs at hmem <;>
          simp at hmem
    | inFailedTransaction =>
      exfalso
      simp [withTransaction] at hmem

/-- A concrete oracle: BEGIN opens a transaction, COMMIT closes it, the
body succeeds without touching the status. -/
def sampleOracle : TxOracle :=
  { execEffect := fun cmd ts =>
      if cmd = beginCmd .readCommitted then .inTransaction
      else if cmd = "COMMIT;" then .notInTransaction
      else ts
    bodyEffect := fun ts => ts
    bodyErr := none }

/-- Witness for C6: the fail-fast branch and the BEGIN command on a
concrete oracle. -/
theorem withTransaction_spec_witness :
    (withTransaction sampleOracle .readCommitted .inFailedTransaction).bodyRan
      = false ∧
    (withTransaction sampleOracle .readCommitted .notInTransaction).cmds.head?
      = some (beginCmd .readCommitted) :=
  ⟨((withTransaction_spec sampleOracle .readCommitted
      .inFailedTransaction).1 rfl).2.1,
    (withTransaction_spec sampleOracle .readCommitted
      .notInTransaction).2.2.1 rfl⟩

theorem pgpassScan_find (lh sp db us : String) (lines : List (List Char))
    (hwf : ∀ l ∈ lines, 5 ≤ (splitColon l).length) :
    pgpassScan lh sp db us lines =
      match lines.find? (pgpassLineMatches lh sp db us) with
      | some l => .ok (ppassOf (splitColon l), none)
      | none => .ok ("", none) := by
  induction lines with
  | nil => rfl
  | cons l rest ih =>
    have hl := hwf l (by simp)
    have hlt : ¬ (splitColon l).length < 5 := by omega
    have hrest : ∀ x ∈ rest, 5 ≤ (splitColon x).length := fun x hx =>
      hwf x (List.mem_cons_of_mem _ hx)
    by_cases hm : pgpassLineMatches lh sp db us l = true
    · have hm2 : (phostOf (splitColon l) = lh ∨ phostOf (splitColon l) = "*") ∧
          (pportOf (splitColon l) = "*" ∨ pportOf (splitColon l) = sp) ∧
          (pdbOf (splitColon l) = "*" ∨ pdbOf (splitColon l) = db) ∧
          (puserOf (splitColon l) = "*" ∨ puserOf (splitColon l) = us) := by
        simpa [pgpassLineMatches] using hm
      simp [pgpassScan, pgpassMatchLine, hlt, hm2, List.find?_cons, hm]
    · have hm2 : ¬ ((phostOf (splitColon l) = lh ∨ phostOf (splitColon l) = "*") ∧
          (pportOf (splitColon l) = "*" ∨ pportOf (splitColon l) = sp) ∧
          (pdbOf (splitColon l) = "*" ∨ pdbOf (splitColon l) = db) ∧
          (puserOf (splitColon l) = "*" ∨ puserOf (splitColon l) = us)) := by
        simpa [pgpassLineMatches] using hm
      simp only [pgpassScan, pgpassMatchLine, if_neg hlt, if_neg hm2,
        List.find?_cons, hm, Bool.false_eq_true, if_false]
      exact ih hrest

/-- C9 counterexample: a missing credential file makes the lookup return
an error, not the claimed error-free empty password. -/
theorem pgpass_missing_file_returns_error :
    passwordfromfile none "myhost" 5433 "db" "alice" =
      .ok ("", some "password file is not a plain file") ∧
    (some "password file is not a plain file" : Option String) ≠ none :=
  ⟨rfl, by decide⟩

/-- C9 (amended): with a non-empty database and user, the lookup fails
with a permissions error whenever the file has any group or world bit
set; a missing file yields an empty password TOGETHER WITH an error; and
for a readable file whose full lines all have at least five fields, the
password returned is the fifth field of the first line whose host, port,
database and user fields each equal the lookup value (with the localhost
and 5432 defaults) or "*". -/
theorem pgpass_lookup_spec (f : PgpassFile) (hostname : String) (port : Int)
    (dbname username : String) (hd : dbname ≠ "") (hu : username ≠ "") :
    (f.mode &&& 0o77 ≠ 0 →
      passwordfromfile (some f) hostname port dbname username =
        .ok ("", some "password file has group or world access; permissions should be u=rw (0600) or less")) ∧
    (passwordfromfile none hostname port dbname username =
      .ok ("", some "password file is not a plain file")) ∧
    (f.mode &&& 0o77 = 0 →
      (∀ l ∈ pgpassLines f.content, 5 ≤ (splitColon l).length) →
      passwordfromfile (some f) hostname port dbname username =
        match (pgpassLines f.content).find?
            (pgpassLineMatches (if hostname = "" then "localhost" else hostname)
              (if port = 0 then "5432" else toString port) dbname username) with
        | some l => .ok (ppassOf (splitColon l), none)
        | none => .ok ("", none)) := by
  refine ⟨?_, ?_, ?_⟩
  · intro hmode
    simp [passwordfromfile, hd, hu, hmode]
  · simp [passwordfromfile, hd, hu]
  · intro hmode hwf
    simp only [passwordfromfile, hd, hu, if_neg hd, if_neg hu, hmode,
      ne_eq, not_true_eq_false, if_false]
    rw [pgpassScan_find _ _ _ _ _ hwf]

/-- A concrete pgpass file: mode 0600, two newline-terminated lines. -/
def samplePgpass : PgpassFile :=
  ⟨0o600, ("h:1:db:alice:secret\n*:*:*:*:fallback\n").data⟩

/-- Witness for C9: the first line matches host h, port 1, db, alice and
the returned password is its fifth field, trailing newline included. -/
theorem pgpass_lookup_spec_witness :
    passwordfromfile (some samplePgpass) "h" 1 "db" "alice" =
      .ok ("secret\n", none) := by
  have h := (pgpass_lookup_spec samplePgpass "h" 1 "db" "alice"
    (by decide) (by decide)).2.2 (by decide) (by decide)
  rw [h]
  rfl

theorem pool_ghost (minConns maxConns : Nat) (hmm : minConns ≤ maxConns)
    (s : PoolState) (h : PoolReach minConns maxConns s) :
    s.n = s.idle + s.out ∧ s.n ≤ maxConns := by
  induction h with
  | init => constructor <;> simp [initPool, hmm]
  | step hr hs ih =>
    cases hs with
    | acquirePop s h hidle => simp only []; omega
    | acquireNew s h hidle hn => simp only []; omega
    | acquireNewFail s h hidle hn => exact ih
    | releaseConn s h hout => simp only []; omega
    | releaseClosed s h => exact ih
    | closePool s h => simp only []; omega
    | maintain s expired refilled h hk hj => simp only []; omega

theorem pool_min_bound (minConns maxConns : Nat) (s : PoolState)
    (h : PoolReachOk minConns maxConns s) : minConns ≤ s.n := by
  induction h with
  | init => simp [initPool]
  | step hr hs hnc hfull ih =>
    cases hs with
    | acquirePop s h hidle => exact ih
    | acquireNew s h hidle hn => simp only []; omega
    | acquireNewFail s h hidle hn => exact ih
    | releaseConn s h hout => exact ih
    | releaseClosed s h => exact ih
    | closePool s h => exact absurd rfl hnc
    | maintain s expired refilled h hk hj =>
      have hfe := hfull expired refilled rfl
      simp only []; omega

/-- C3 counterexample: NewPool's validation accepts minConns = 2,
maxConns = 1 (it never checks min ≤ max), and the initial state — which
is reachable — already has n = 2 > max = 1, violating the claimed
min ≤ n ≤ max invariant. -/
theorem pool_bounds_violated :
    newPoolChecks 2 1 5 = true ∧
    PoolReach 2 1 (initPool 2) ∧
    ¬ (initPool 2).n ≤ 1 :=
  ⟨by decide, .init, by decide⟩

/-- C3 (amended): for a pool with min ≤ max, every reachable state
satisfies n ≤ max and idle.len ≤ n (so no step, including each guarded
increment, exceeds max); once the closed flag is set, Acquire returns
the "pool is closed" error and no acquire step is possible; and along
runs that never close the pool and in which every maintenance refill
attempt succeeds, min ≤ n also holds (Close drops the idle connections
out of n, and a failing Connect during maintenance can leave n below
min, so the lower bound needs both provisos). -/
theorem pool_invariants (minConns maxConns : Nat) (hmm : minConns ≤ maxConns) :
    (∀ s, PoolReach minConns maxConns s →
      s.n ≤ maxConns ∧ s.idle ≤ s.n ∧
      (s.closed = true →
        acquireClosedErr s = some "pool is closed" ∧
        ∀ s2, ¬ PoolStep minConns maxConns .acquirePop s s2 ∧
          ¬ PoolStep minConns maxConns .acquireNew s s2)) ∧
    (∀ s, PoolReachOk minConns maxConns s → minConns ≤ s.n) := by
  constructor
  · intro s h
    obtain ⟨hg, hmax⟩ := pool_ghost minConns maxConns hmm s h
    refine ⟨hmax, by omega, ?_⟩
    intro hc
    refine ⟨by simp [acquireClosedErr, hc], ?_⟩
    intro s2
    constructor
    · intro hstep
      cases hstep with
      | acquirePop s h hidle => simp [hc] at h
    · intro hstep
      cases hstep with
      | acquireNew s h hidle hn => simp [hc] at h
  · exact fun s h => pool_min_bound minConns maxConns s h

/-- Witness for C3 (amended): the fresh pool with min = 1, max = 2. -/
theorem pool_invariants_witness :
    (initPool 1).n ≤ 2 ∧ 1 ≤ (initPool 1).n := by
  have h := pool_invariants 1 2 (by decide)
  exact ⟨(h.1 (initPool 1) .init).1, h.2 (initPool 1) .init⟩

/-- C4 counterexample: closing a fully idle pool twice returns nil the
second time (and the first time too), and closing a connection twice
also returns nil the second time — not the error the claim requires. -/
theorem close_twice_returns_nil :
    (poolCloseFn (poolCloseFn (initPool 1)).1).2 = none ∧
    connClose (connClose .ready).1 = (.disconnected, none) :=
  ⟨by decide, rfl⟩

/-- C4 (amended): a second Close leaves the object's state unchanged but
returns nil for all four types.  For Pool, Close on an already-closed
pool is a no-op returning nil; for Conn, the closure computes the
intended "connection already closed" error but the recover wrapper
discards it; for Statement there is no already-closed check, so a second
Close just writes another Close('S') frame and returns nil; for a fully
drained ResultSet a second Close consumes nothing and returns nil. -/
theorem close_twice_spec (md5 : List Nat → List Nat) (s : PoolState)
    (st : StmtState) (name : String) :
    ((poolCloseFn s).1.closed = true) ∧
    (s.closed = true → poolCloseFn s = (s, none)) ∧
    connCloseBody .disconnected =
      (.disconnected, some "connection already closed") ∧
    connClose .disconnected = (.disconnected, none) ∧
    (stmtClose st name).1.isClosed = true ∧
    (stmtClose (stmtClose st name).1 name =
      ({ isClosed := true
         sent := (stmtClose st name).1.sent ++ [.closeItem 'S' name] }, none)) ∧
    (∀ fuel conn rs msgs, rs.allResultsComplete = true →
      rs.currentResultComplete = true →
      rsClose md5 (fuel + 1) conn rs none msgs =
        ({ conn with status := .ready }, rs, msgs, none)) := by
  refine ⟨?_, ?_, rfl, rfl, rfl, rfl, ?_⟩
  · by_cases hc : s.closed
    · simp [poolCloseFn, hc]
    · simp [poolCloseFn, hc]
  · intro hc
    simp [poolCloseFn, hc]
  · intro fuel conn rs msgs hall hcc
    simp [rsClose, eatAllResultRows, nextResult, eatCurrentResultRows,
      fetchNext_of_complete md5 conn rs msgs hcc, hall]

/-- Witness for C4 (amended): a drained ResultSet closed again with one
unit of fuel. -/
theorem close_twice_spec_witness :
    rsClose (fun bs => bs) 1 connInitial
      { newResultSet with
        currentResultComplete := true
        allResultsComplete := true } none [] =
      ({ connInitial with status := .ready },
        { newResultSet with
          currentResultComplete := true
          allResultsComplete := true }, [], none) :=
  (close_twice_spec (fun bs => bs) (initPool 1) ⟨true, []⟩
    "stmt0").2.2.2.2.2.2 0 connInitial _ [] rfl rfl

/-- C5 counterexample: with parameter @a the source rewriter turns
"select @a,@a" into "select $1,@a": the comma is consumed as the
trailing boundary of the first match, so the second occurrence — outside
any string literal — is not replaced, while the claim-side rewriter
replaces both occurrences. -/
theorem rewrite_claim_false :
    adjustCommand "select @a,@a" [⟨"@a", ""⟩] = "select $1,@a" ∧
    specAdjust "select @a,@a" [⟨"@a", ""⟩] = "select $1,$1" ∧
    adjustCommand "select @a,@a" [⟨"@a", ""⟩] ≠
      specAdjust "select @a,@a" [⟨"@a", ""⟩] :=
  ⟨by decide, by decide, by decide⟩

theorem findQuotesAux_no_quote (fuel : Nat) (l : List Char)
    (h : ∀ c ∈ l, c ≠ '\'') (i : Nat) : findQuotesAux fuel i l = [] := by
  induction fuel generalizing i l with
  | zero => rfl
  | succ fuel ih =>
    cases l with
    | nil => rfl
    | cons c rest =>
      have hc := h c (by simp)
      simp only [findQuotesAux, if_neg hc]
      exact ih rest (fun x hx => h x (by simp [hx])) (i + 1)

theorem findQuotesAux_append (a : List Char) (h : ∀ c ∈ a, c ≠ '\'')
    (fuel i : Nat) (l : List Char) :
    findQuotesAux (a.length + fuel) i (a ++ l) =
      findQuotesAux fuel (i + a.length) l := by
  induction a generalizing i with
  | nil => simp
  | cons c rest ih =>
    have hc := h c (by simp)
    have hr : ∀ x ∈ rest, x ≠ '\'' := fun x hx => h x (by simp [hx])
    rw [show (c :: rest).length + fuel = (rest.length + fuel) + 1 by
      simp; omega]
    simp only [List.cons_append, findQuotesAux, if_neg hc, List.append_eq]
    rw [ih hr (i + 1)]
    congr 1
    simp
    omega

theorem findIdx_quote (q : List Char) (h : ∀ c ∈ q, c ≠ '\'')
    (post : List Char) :
    ∀ i, List.findIdx? (fun x => x = '\'') (q ++ '\'' :: post) i =
      some (q.length + i) := by
  induction q with
  | nil => intro i; simp [List.findIdx?_cons]
  | cons c rest ih =>
    intro i
    have hc := h c (by simp)
    have hr : ∀ x ∈ rest, x ≠ '\'' := fun x hx => h x (by simp [hx])
    simp only [List.cons_append, List.findIdx?_cons]
    rw [if_neg (by simp [hc]), ih hr (i + 1)]
    congr 1
    simp
    omega

theorem findQuotes_single (pre q post : List Char)
    (hp : ∀ c ∈ pre, c ≠ '\'') (hq : ∀ c ∈ q, c ≠ '\'')
    (ho : ∀ c ∈ post, c ≠ '\'') :
    findQuotes (pre ++ '\'' :: (q ++ '\'' :: post)) =
      [(pre.length, pre.length + q.length + 2)] := by
  unfold findQuotes
  rw [show (pre ++ '\'' :: (q ++ '\'' :: post)).length + 1 =
    pre.length + ((q.length + post.length + 2) + 1) by simp; omega]
  rw [findQuotesAux_append pre hp _ 0]
  simp only [findQuotesAux, if_pos rfl]
  rw [findIdx_quote q hq post 0]
  have hdrop : (q ++ '\'' :: post).drop (q.length + 1) = post := by
    rw [show q ++ '\'' :: post = (q ++ ['\'']) ++ post by simp,
      show q.length + 1 = (q ++ ['\'']).length by simp]
    exact List.drop_left _ _
  simp only [Nat.add_zero, hdrop]
  rw [findQuotesAux_no_quote _ post ho]
  simp

theorem replaceParameterName_single (pre post name new : List Char)
    (d1 d2 g : Char)
    (hm : findMatches name (pre ++ d1 :: g :: (name ++ d2 :: post)) =
      [(pre.length, pre.length + name.length + 3)])
    (hnq : ∀ c ∈ pre ++ d1 :: g :: (name ++ d2 :: post), c ≠ '\'') :
    replaceParameterName (pre ++ d1 :: g :: (name ++ d2 :: post))
      (g :: name) new = (pre ++ [d1]) ++ new ++ d2 :: post := by
  have hfq : findQuotes (pre ++ d1 :: g :: (name ++ d2 :: post)) = [] :=
    findQuotesAux_no_quote _ _ hnq 0
  have htake : (pre ++ d1 :: g :: (name ++ d2 :: post)).take (pre.length + 1) =
      pre ++ [d1] := by
    rw [show pre ++ d1 :: g :: (name ++ d2 :: post) =
      (pre ++ [d1]) ++ g :: (name ++ d2 :: post) from by simp]
    exact List.take_left' (by simp)
  have hdrop : (pre ++ d1 :: g :: (name ++ d2 :: post)).drop
      (pre.length + name.length + 3 - 1) = d2 :: post := by
    rw [show pre ++ d1 :: g :: (name ++ d2 :: post) =
      (pre ++ d1 :: g :: name) ++ d2 :: post from by simp]
    exact List.drop_left' (by simp; omega)
  unfold replaceParameterName
  rw [hfq]
  simp only [replaceQuoteSegs, List.drop_zero, List.drop_succ_cons]
  unfold replaceParameterNameInSubstring
  rw [hm]
  simp only [replaceInSubstringGo, goSlice, List.drop_zero, Nat.sub_self,
    List.take_take]
  rw [if_pos (by omega : 1 < pre.length + name.length + 3)]
  rw [hdrop, htake]

theorem replaceParameterName_quoted (pre q post name new : List Char)
    (g : Char)
    (hqpre : ∀ c ∈ pre, c ≠ '\'') (hqq : ∀ c ∈ q, c ≠ '\'')
    (hqpost : ∀ c ∈ post, c ≠ '\'')
    (hmpre : findMatches name pre = [])
    (hmpost : findMatches name post = []) :
    replaceParameterName (pre ++ '\'' :: (q ++ '\'' :: post)) (g :: name) new =
      pre ++ '\'' :: (q ++ '\'' :: post) := by
  have htk : (pre ++ '\'' :: (q ++ '\'' :: post)).take pre.length = pre :=
    List.take_left' rfl
  have hmid : goSlice (pre ++ '\'' :: (q ++ '\'' :: post)) pre.length
      (pre.length + q.length + 2) = '\'' :: (q ++ ['\'']) := by
    unfold goSlice
    rw [show pre ++ '\'' :: (q ++ '\'' :: post) =
      (pre ++ '\'' :: (q ++ ['\''])) ++ post from by simp]
    rw [List.take_left' (by simp; omega)]
    rw [show pre ++ '\'' :: (q ++ ['\'']) =
      pre ++ ('\'' :: (q ++ ['\''])) from rfl]
    rw [show pre.length = pre.length from rfl]
    exact List.drop_left pre _
  have hdp : (pre ++ '\'' :: (q ++ '\'' :: post)).drop
      (pre.length + q.length + 2) = post := by
    rw [show pre ++ '\'' :: (q ++ '\'' :: post) =
      (pre ++ '\'' :: (q ++ ['\''])) ++ post from by simp]
    exact List.drop_left' (by simp; omega)
  unfold replaceParameterName
  rw [findQuotes_single pre q post hqpre hqq hqpost]
  simp only [replaceQuoteSegs, List.drop_succ_cons, List.drop_zero]
  unfold replaceParameterNameInSubstring
  rw [hdp, hmpost]
  have hseg : goSlice (pre ++ '\'' :: (q ++ '\'' :: post)) 0 pre.length =
      pre := by
    unfold goSlice
    rw [htk]
    exact List.drop_zero _
  rw [hseg, hmpre, hmid]
  simp [replaceInSubstringGo]

theorem ne_quote_of_delim {c : Char} (h : isDelim c = true) : c ≠ '\'' := by
  intro hc
  subst hc
  exact absurd h (by decide)

theorem ne_quote_of_sigil {c : Char} (h : isSigil c = true) : c ≠ '\'' := by
  intro hc
  subst hc
  exact absurd h (by decide)

theorem matchLenAt_single (name : List Char) (c : Char) :
    matchLenAt name [c] = none := rfl

theorem matchLenAt_not_delim (name : List Char) {c : Char}
    (h : isDelim c = false) (l : List Char) :
    matchLenAt name (c :: l) = none := by
  cases l with
  | nil => rfl
  | cons g r => simp [matchLenAt, h]

theorem matchLenAt_not_sigil (name : List Char) (c₀ : Char) {c₁ : Char}
    (h : isSigil c₁ = false) (l : List Char) :
    matchLenAt name (c₀ :: c₁ :: l) = none := by
  simp [matchLenAt, h]

theorem matchLenAt_prefix_false {name : List Char} (c₀ c₁ : Char)
    {l : List Char} (h : List.isPrefixOf name l = false) :
    matchLenAt name (c₀ :: c₁ :: l) = none := by
  simp [matchLenAt, h]

theorem matchLenAt_sigil_word {name : List Char} (hne : name ≠ [])
    (hw : wordChars name) {g : Char} (hg : isSigil g = true)
    (c d : Char) (X : List Char) :
    matchLenAt name (c :: d :: g :: X) = none := by
  obtain ⟨nh, nt, rfl⟩ := List.exists_cons_of_ne_nil hne
  have hnh : isSigil nh = false := (hw nh (by simp)).2.1
  have hne2 : nh ≠ g := by
    intro hq
    rw [hq, hg] at hnh
    exact Bool.noConfusion hnh
  apply matchLenAt_prefix_false
  simp [List.isPrefixOf, hne2]

theorem isPrefixOf_self_append (l t : List Char) :
    List.isPrefixOf l (l ++ t) = true := by
  induction l with
  | nil => cases t <;> rfl
  | cons a as ih => simp [List.isPrefixOf, ih]

theorem matchLenAt_delim (name : List Char) {d g e : Char} (X : List Char)
    (hd : isDelim d = true) (hg : isSigil g = true) (he : isDelim e = true) :
    matchLenAt name (d :: g :: (name ++ e :: X)) = some (name.length + 3) := by
  have hpre : List.isPrefixOf name (name ++ e :: X) = true :=
    isPrefixOf_self_append name (e :: X)
  simp only [matchLenAt, hd, hg, hpre, Bool.and_self, if_true, List.drop_left, he]
  exact congrArg some (by omega)

theorem matchLenAt_endm (name : List Char) {d g : Char}
    (hd : isDelim d = true) (hg : isSigil g = true) :
    matchLenAt name (d :: g :: name) = some (2 + name.length) := by
  have hpre : List.isPrefixOf name name = true := by
    have := isPrefixOf_self_append name []
    rwa [List.append_nil] at this
  simp only [matchLenAt, hd, hg, hpre, Bool.and_self, if_true, List.drop_length]

theorem findMatchesAux_nil (name : List Char) (fuel i : Nat) :
    findMatchesAux name fuel i [] = [] := by
  cases fuel <;> rfl

theorem findMatchesAux_step_none (name : List Char) (fuel i : Nat) {c : Char}
    {t : List Char} (h : matchLenAt name (c :: t) = none) :
    findMatchesAux name (fuel + 1) i (c :: t) =
      findMatchesAux name fuel (i + 1) t := by
  simp only [findMatchesAux]
  split
  · next len heq =>
    rw [h] at heq
    exact absurd heq (by simp)
  · rfl

theorem findMatchesAux_step_some (name : List Char) (fuel i : Nat) {c : Char}
    {t : List Char} {len : Nat} (h : matchLenAt name (c :: t) = some len) :
    findMatchesAux name (fuel + 1) i (c :: t) =
      (i, i + len) :: findMatchesAux name fuel (i + len) ((c :: t).drop len) := by
  simp only [findMatchesAux]
  split
  · next len' heq =>
    rw [h] at heq
    injection heq with h'
    subst h'
    rfl
  · next heq =>
    rw [h] at heq
    exact absurd heq (by simp)

theorem findMatchesAux_skip (name seg tail : List Char)
    (hs : ∀ c ∈ seg.drop 1, isSigil c = false)
    (ht : ∀ c ∈ seg, matchLenAt name (c :: tail) = none) :
    ∀ fuel i, findMatchesAux name (seg.length + fuel) i (seg ++ tail) =
      findMatchesAux name fuel (i + seg.length) tail := by
  induction seg with
  | nil => intro fuel i; simp
  | cons c seg' ih =>
    intro fuel i
    have hnone : matchLenAt name (c :: (seg' ++ tail)) = none := by
      cases seg' with
      | nil => simpa using ht c (by simp)
      | cons c₁ s'' =>
        exact matchLenAt_not_sigil name c (hs c₁ (by simp)) _
    simp only [List.cons_append, List.length_cons]
    rw [show seg'.length + 1 + fuel = (seg'.length + fuel) + 1 by omega]
    rw [findMatchesAux_step_none name (seg'.length + fuel) i hnone]
    rw [ih (fun x hx => hs x (List.mem_of_mem_drop hx))
      (fun x hx => ht x (by simp [hx])) fuel (i + 1)]
    congr 1
    omega

theorem findMatches_nil_of_sigilFree (name seg : List Char)
    (hs : ∀ c ∈ seg, isSigil c = false) : findMatches name seg = [] := by
  unfold findMatches
  have h := findMatchesAux_skip name seg []
    (fun c hc => hs c (List.mem_of_mem_drop hc))
    (fun c _ => matchLenAt_single name c) 1 0
  rw [List.append_nil] at h
  rw [h]
  rfl

theorem findMatchesAux_build {g : Char} {name : List Char}
    (hg : isSigil g = true) (hne : name ≠ []) (hw : wordChars name) :
    ∀ (blocks : List (Char × Char × List Char)) (pre : List Char) (i fuel : Nat),
      sigilFree pre → blocksSep blocks →
      (buildCmd g name pre blocks).length < fuel →
      findMatchesAux name fuel i (buildCmd g name pre blocks) =
        buildMatches name.length i pre blocks := by
  intro blocks
  induction blocks with
  | nil =>
    intro pre i fuel hpre _ hfuel
    simp only [buildCmd] at hfuel ⊢
    have h := findMatchesAux_skip name pre []
      (fun c hc => (hpre c (List.mem_of_mem_drop hc)).1)
      (fun c _ => matchLenAt_single name c) (fuel - pre.length) i
    rw [List.append_nil] at h
    rw [show fuel = pre.length + (fuel - pre.length) from by omega, h,
      findMatchesAux_nil]
    rfl
  | cons blk rest ih =>
    intro pre i fuel hpre hb hfuel
    obtain ⟨d, e, gap⟩ := blk
    have hd : isDelim d = true := (hb (d, e, gap) (by simp)).1
    have he : isDelim e = true := (hb (d, e, gap) (by simp)).2.1
    have hgap : sigilFree gap := (hb (d, e, gap) (by simp)).2.2
    have hrest : blocksSep rest := fun b hbm => hb b (by simp [hbm])
    simp only [buildCmd, List.append_assoc, List.cons_append] at hfuel ⊢
    have hlen : (pre ++ d :: g :: (name ++ e :: buildCmd g name gap rest)).length =
        pre.length + name.length + (buildCmd g name gap rest).length + 3 := by
      simp
      omega
    rw [hlen] at hfuel
    have hskip := findMatchesAux_skip name pre
      (d :: g :: (name ++ e :: buildCmd g name gap rest))
      (fun c hc => (hpre c (List.mem_of_mem_drop hc)).1)
      (fun c _ => matchLenAt_sigil_word hne hw hg c d _)
      (fuel - pre.length) i
    rw [show fuel = pre.length + (fuel - pre.length) from by omega, hskip]
    obtain ⟨F, hF⟩ : ∃ F, fuel - pre.length = F + 1 :=
      ⟨fuel - pre.length - 1, by omega⟩
    rw [hF]
    rw [findMatchesAux_step_some name F (i + pre.length)
      (matchLenAt_delim name (buildCmd g name gap rest) hd hg he)]
    have hdropX : (d :: g :: (name ++ e :: buildCmd g name gap rest)).drop
        (name.length + 3) = buildCmd g name gap rest := by
      rw [show d :: g :: (name ++ e :: buildCmd g name gap rest) =
        (d :: g :: name ++ [e]) ++ buildCmd g name gap rest by simp]
      rw [show name.length + 3 = (d :: g :: name ++ [e]).length by simp <;> omega]
      exact List.drop_left _ _
    rw [hdropX]
    rw [ih gap (i + pre.length + (name.length + 3)) F hgap hrest (by omega)]
    simp only [buildMatches]
    rw [show i + pre.length + (name.length + 3) = i + pre.length + name.length + 3
      from by omega]

theorem findMatches_build {g : Char} {name : List Char}
    (hg : isSigil g = true) (hne : name ≠ []) (hw : wordChars name)
    (pre : List Char) (blocks : List (Char × Char × List Char))
    (hpre : sigilFree pre) (hb : blocksSep blocks) :
    findMatches name (buildCmd g name pre blocks) =
      buildMatches name.length 0 pre blocks :=
  findMatchesAux_build hg hne hw blocks pre 0 _ hpre hb (Nat.lt_succ_self _)

theorem buildCmd_no_quote {g : Char} {name : List Char}
    (hg : isSigil g = true) (hw : wordChars name) :
    ∀ (blocks : List (Char × Char × List Char)) (pre : List Char),
      sigilFree pre → blocksSep blocks →
      ∀ c ∈ buildCmd g name pre blocks, c ≠ '\'' := by
  intro blocks
  induction blocks with
  | nil =>
    intro pre hpre _ c hc
    exact (hpre c (by simpa [buildCmd] using hc)).2
  | cons blk rest ih =>
    intro pre hpre hb c hc
    obtain ⟨d, e, gap⟩ := blk
    have hd : isDelim d = true := (hb (d, e, gap) (by simp)).1
    have he : isDelim e = true := (hb (d, e, gap) (by simp)).2.1
    have hgap : sigilFree gap := (hb (d, e, gap) (by simp)).2.2
    have hrest : blocksSep rest := fun b hbm => hb b (by simp [hbm])
    simp only [buildCmd, List.append_assoc, List.cons_append] at hc
    rcases List.mem_append.1 hc with h1 | h2
    · exact (hpre c h1).2
    rcases List.mem_cons.1 h2 with rfl | h3
    · exact ne_quote_of_delim hd
    rcases List.mem_cons.1 h3 with rfl | h4
    · exact ne_quote_of_sigil hg
    rcases List.mem_append.1 h4 with h5 | h6
    · exact (hw c h5).2.2
    rcases List.mem_cons.1 h6 with rfl | h7
    · exact ne_quote_of_delim he
    · exact ih gap hgap hrest c h7

theorem replaceGo_suffix {g : Char} {name : List Char} (s new : List Char) :
    ∀ (blocks : List (Char × Char × List Char)) (gap : List Char) (e : Char)
      (i : Nat), 1 < i →
      s.drop (i - 1) = e :: buildCmd g name gap blocks →
      replaceInSubstringGo s new i (buildMatches name.length i gap blocks) =
        e :: buildOut new gap blocks := by
  intro blocks
  induction blocks with
  | nil =>
    intro gap e i hi hdrop
    simp only [buildCmd] at hdrop
    simp only [buildMatches, replaceInSubstringGo, if_pos hi, hdrop, buildOut]
  | cons blk rest ih =>
    intro gap e i hi hdrop
    obtain ⟨d, e', gap'⟩ := blk
    simp only [buildCmd, List.append_assoc, List.cons_append] at hdrop
    simp only [buildMatches, replaceInSubstringGo]
    have hslice : goSlice s (i - 1) (i + gap.length + 1) = e :: (gap ++ [d]) := by
      unfold goSlice
      rw [List.drop_take (i + gap.length + 1) (i - 1) s, hdrop]
      rw [show i + gap.length + 1 - (i - 1) = (gap.length + 1) + 1 by omega]
      rw [List.take_succ_cons]
      congr 1
      rw [show gap ++ d :: g :: (name ++ e' :: buildCmd g name gap' rest) =
        (gap ++ [d]) ++ (g :: (name ++ e' :: buildCmd g name gap' rest)) by simp]
      exact List.take_left' (by simp)
    have hdrop2 : s.drop (i + gap.length + name.length + 3 - 1) =
        e' :: buildCmd g name gap' rest := by
      rw [show i + gap.length + name.length + 3 - 1 =
        (i - 1) + (gap.length + name.length + 3) by omega]
      rw [← List.drop_drop, hdrop]
      rw [show e :: (gap ++ d :: g :: (name ++ e' :: buildCmd g name gap' rest)) =
        (e :: gap ++ d :: g :: name) ++ (e' :: buildCmd g name gap' rest) by simp]
      rw [show gap.length + name.length + 3 =
        (e :: gap ++ d :: g :: name).length by simp <;> omega]
      exact List.drop_left _ _
    have hrec := ih gap' e' (i + gap.length + name.length + 3) (by omega) hdrop2
    rw [hslice, hrec]
    simp only [buildOut]
    simp [List.append_assoc]

theorem findMatchesAux_seg_nil (name seg : List Char)
    (hs : ∀ c ∈ seg.drop 1, isSigil c = false) :
    ∀ fuel i, findMatchesAux name (seg.length + fuel) i seg = [] := by
  intro fuel i
  have h := findMatchesAux_skip name seg []
    hs (fun c _ => matchLenAt_single name c) fuel i
  rw [List.append_nil] at h
  rw [h, findMatchesAux_nil]

theorem replaceInSubstring_build {g : Char} {name : List Char}
    (hg : isSigil g = true) (hne : name ≠ []) (hw : wordChars name)
    (new pre : List Char) (blocks : List (Char × Char × List Char))
    (hpre : sigilFree pre) (hb : blocksSep blocks) :
    replaceParameterNameInSubstring (buildCmd g name pre blocks) new name =
      buildOut new pre blocks := by
  unfold replaceParameterNameInSubstring
  rw [findMatches_build hg hne hw pre blocks hpre hb]
  cases blocks with
  | nil => simp [buildMatches, replaceInSubstringGo, buildCmd, buildOut]
  | cons blk rest =>
    obtain ⟨d, e, gap⟩ := blk
    have hd : isDelim d = true := (hb (d, e, gap) (by simp)).1
    have he : isDelim e = true := (hb (d, e, gap) (by simp)).2.1
    have hgap : sigilFree gap := (hb (d, e, gap) (by simp)).2.2
    have hrest : blocksSep rest := fun b hbm => hb b (by simp [hbm])
    simp only [buildMatches, replaceInSubstringGo, Nat.zero_add, Nat.sub_self]
    have hslice : goSlice (buildCmd g name pre ((d, e, gap) :: rest)) 0
        (pre.length + 1) = pre ++ [d] := by
      unfold goSlice
      rw [List.drop_zero]
      simp only [buildCmd, List.append_assoc, List.cons_append]
      rw [show pre ++ d :: g :: (name ++ e :: buildCmd g name gap rest) =
        (pre ++ [d]) ++ (g :: (name ++ e :: buildCmd g name gap rest)) by simp]
      exact List.take_left' (by simp)
    have hsuffix : (buildCmd g name pre ((d, e, gap) :: rest)).drop
        (pre.length + name.length + 3 - 1) = e :: buildCmd g name gap rest := by
      simp only [buildCmd, List.append_assoc, List.cons_append]
      rw [show pre ++ d :: g :: (name ++ e :: buildCmd g name gap rest) =
        (pre ++ d :: g :: name) ++ (e :: buildCmd g name gap rest) by simp]
      rw [show pre.length + name.length + 3 - 1 =
        (pre ++ d :: g :: name).length by simp <;> omega]
      exact List.drop_left _ _
    have hrec := replaceGo_suffix (buildCmd g name pre ((d, e, gap) :: rest)) new
      rest gap e (pre.length + name.length + 3) (by omega) hsuffix
    rw [hslice, hrec]
    simp only [buildOut]
    simp [List.append_assoc]

theorem replaceParameterName_build {g : Char} {name : List Char}
    (hg : isSigil g = true) (hne : name ≠ []) (hw : wordChars name)
    (new pre : List Char) (blocks : List (Char × Char × List Char))
    (hpre : sigilFree pre) (hb : blocksSep blocks) :
    replaceParameterName (buildCmd g name pre blocks) (g :: name) new =
      buildOut new pre blocks := by
  unfold replaceParameterName
  have hq : findQuotes (buildCmd g name pre blocks) = [] :=
    findQuotesAux_no_quote _ _ (buildCmd_no_quote hg hw blocks pre hpre hb) 0
  rw [hq]
  simp only [replaceQuoteSegs, List.drop_succ_cons, List.drop_zero]
  exact replaceInSubstring_build hg hne hw new pre blocks hpre hb

theorem adjustCommand_build {g : Char} {name : List Char}
    (hg : isSigil g = true) (hne : name ≠ []) (hw : wordChars name)
    (pre : List Char) (blocks : List (Char × Char × List Char))
    (hpre : sigilFree pre) (hb : blocksSep blocks) (p : Param)
    (hpname : p.name.data = g :: name) :
    adjustCommand (String.mk (buildCmd g name pre blocks)) [p] =
      String.mk (buildOut (paramSubst 0 p).data pre blocks) := by
  unfold adjustCommand adjustCommandAux
  rw [show (String.mk (buildCmd g name pre blocks)).data =
    buildCmd g name pre blocks from rfl, hpname,
    replaceParameterName_build hg hne hw (paramSubst 0 p).data pre blocks hpre hb]
  rfl

theorem findMatches_start {g : Char} {name : List Char} (hne : name ≠ [])
    (hw : wordChars name) (d : Char) (rest : List Char)
    (hrest : ∀ c ∈ rest, isSigil c = false) :
    findMatches name ((g :: name) ++ d :: rest) = [] := by
  unfold findMatches
  simp only [List.cons_append]
  rw [show (g :: (name ++ d :: rest)).length + 1 =
    (name.length + ((rest.length + 1) + 1)) + 1 by simp <;> omega]
  obtain ⟨nh, nt, hname⟩ := List.exists_cons_of_ne_nil hne
  have h0 : matchLenAt name (g :: (name ++ d :: rest)) = none := by
    rw [hname, List.cons_append]
    exact matchLenAt_not_sigil _ g (hw nh (by rw [hname]; simp)).2.1 _
  rw [findMatchesAux_step_none name _ _ h0]
  rw [findMatchesAux_skip name name (d :: rest)
    (fun c hc => (hw c (List.mem_of_mem_drop hc)).2.1)
    (fun c hc => matchLenAt_not_delim name (hw c hc).1 _)]
  rw [show (rest.length + 1) + 1 = (d :: rest).length + 1 by simp]
  exact findMatchesAux_seg_nil name (d :: rest)
    (fun c hc => hrest c (by simpa using hc)) 1 _

theorem replaceParameterName_start {g : Char} {name : List Char}
    (hg : isSigil g = true) (hne : name ≠ []) (hw : wordChars name)
    {d : Char} (hd : isDelim d = true) (rest : List Char)
    (hrest : sigilFree rest) (new : List Char) :
    replaceParameterName ((g :: name) ++ d :: rest) (g :: name) new =
      (g :: name) ++ d :: rest := by
  unfold replaceParameterName
  have hnq : ∀ c ∈ (g :: name) ++ d :: rest, c ≠ '\'' := by
    intro c hc
    rcases List.mem_append.1 hc with h1 | h2
    · rcases List.mem_cons.1 h1 with rfl | h3
      · exact ne_quote_of_sigil hg
      · exact (hw c h3).2.2
    · rcases List.mem_cons.1 h2 with rfl | h4
      · exact ne_quote_of_delim hd
      · exact (hrest c h4).2
  rw [show findQuotes ((g :: name) ++ d :: rest) = [] from
    findQuotesAux_no_quote _ _ hnq 0]
  simp only [replaceQuoteSegs, List.drop_succ_cons, List.drop_zero]
  unfold replaceParameterNameInSubstring
  rw [findMatches_start hne hw d rest (fun c hc => (hrest c hc).1)]
  simp [replaceInSubstringGo]

theorem adjustCommand_start {g : Char} {name : List Char}
    (hg : isSigil g = true) (hne : name ≠ []) (hw : wordChars name)
    {d : Char} (hd : isDelim d = true) (rest : List Char)
    (hrest : sigilFree rest) (p : Param) (hpname : p.name.data = g :: name) :
    adjustCommand (String.mk ((g :: name) ++ d :: rest)) [p] =
      String.mk ((g :: name) ++ d :: rest) := by
  unfold adjustCommand adjustCommandAux
  rw [show (String.mk ((g :: name) ++ d :: rest)).data =
    (g :: name) ++ d :: rest from rfl, hpname,
    replaceParameterName_start hg hne hw hd rest hrest (paramSubst 0 p).data]
  rfl

theorem findMatches_endm {g : Char} {name : List Char}
    (hg : isSigil g = true) (hne : name ≠ []) (hw : wordChars name)
    (pre : List Char) (hpre : sigilFree pre) {d : Char} (hd : isDelim d = true) :
    findMatches name (pre ++ d :: g :: name) =
      [(pre.length, pre.length + name.length + 2)] := by
  unfold findMatches
  rw [show (pre ++ d :: g :: name).length + 1 =
    pre.length + ((name.length + 2) + 1) by simp <;> omega]
  rw [findMatchesAux_skip name pre (d :: g :: name)
    (fun c hc => (hpre c (List.mem_of_mem_drop hc)).1)
    (fun c _ => matchLenAt_sigil_word hne hw hg c d name)]
  rw [findMatchesAux_step_some name (name.length + 2) (0 + pre.length)
    (matchLenAt_endm name hd hg)]
  have hdropAll : (d :: g :: name).drop (2 + name.length) = [] := by
    rw [show 2 + name.length = (d :: g :: name).length by simp <;> omega]
    exact List.drop_length _
  rw [hdropAll, findMatchesAux_nil]
  rw [show ((0 : Nat) + pre.length, 0 + pre.length + (2 + name.length)) =
    (pre.length, pre.length + name.length + 2) by
      simp only [Prod.mk.injEq]
      omega]

theorem replaceParameterName_endm {g : Char} {name : List Char}
    (hg : isSigil g = true) (hne : name ≠ []) (hw : wordChars name)
    (pre : List Char) (hpre : sigilFree pre) {d : Char} (hd : isDelim d = true)
    (new : List Char) :
    replaceParameterName (pre ++ d :: g :: name) (g :: name) new =
      pre ++ [d] ++ new ++ name.drop (name.length - 1) := by
  unfold replaceParameterName
  have hnq : ∀ c ∈ pre ++ d :: g :: name, c ≠ '\'' := by
    intro c hc
    rcases List.mem_append.1 hc with h1 | h2
    · exact (hpre c h1).2
    rcases List.mem_cons.1 h2 with rfl | h3
    · exact ne_quote_of_delim hd
    rcases List.mem_cons.1 h3 with rfl | h4
    · exact ne_quote_of_sigil hg
    · exact (hw c h4).2.2
  rw [show findQuotes (pre ++ d :: g :: name) = [] from
    findQuotesAux_no_quote _ _ hnq 0]
  simp only [replaceQuoteSegs, List.drop_succ_cons, List.drop_zero]
  unfold replaceParameterNameInSubstring
  rw [findMatches_endm hg hne hw pre hpre hd]
  simp only [replaceInSubstringGo]
  rw [if_pos (by omega : 1 < pre.length + name.length + 2)]
  have htake : goSlice (pre ++ d :: g :: name) (1 - 1) (pre.length + 1) =
      pre ++ [d] := by
    unfold goSlice
    rw [show (1 : Nat) - 1 = 0 from rfl, List.drop_zero]
    rw [show pre ++ d :: g :: name = (pre ++ [d]) ++ (g :: name) by simp]
    exact List.take_left' (by simp)
  have h1le : 1 ≤ name.length := by
    cases name with
    | nil => exact absurd rfl hne
    | cons a as => simp
  have hdropLast : (pre ++ d :: g :: name).drop
      (pre.length + name.length + 2 - 1) = name.drop (name.length - 1) := by
    rw [show pre ++ d :: g :: name =
      (pre ++ d :: g :: name.take (name.length - 1)) ++
        name.drop (name.length - 1) by
      simp [List.append_assoc, List.cons_append, List.take_append_drop]]
    apply List.drop_left'
    simp [List.length_take]
    omega
  rw [htake, hdropLast]

theorem adjustCommand_endm {g : Char} {name : List Char}
    (hg : isSigil g = true) (hne : name ≠ []) (hw : wordChars name)
    (pre : List Char) (hpre : sigilFree pre) {d : Char} (hd : isDelim d = true)
    (p : Param) (hpname : p.name.data = g :: name) :
    adjustCommand (String.mk (pre ++ d :: g :: name)) [p] =
      String.mk (pre ++ [d] ++ (paramSubst 0 p).data ++
        name.drop (name.length - 1)) := by
  unfold adjustCommand adjustCommandAux
  rw [show (String.mk (pre ++ d :: g :: name)).data = pre ++ d :: g :: name
    from rfl, hpname,
    replaceParameterName_endm hg hne hw pre hpre hd (paramSubst 0 p).data]
  rfl

theorem isPrefixOf_append_delim {e : Char} (he : isDelim e = true)
    (post : List Char) :
    ∀ (name name₂ : List Char), wordChars name →
      List.isPrefixOf name name₂ = false →
      List.isPrefixOf name (name₂ ++ e :: post) = false := by
  intro name
  induction name with
  | nil =>
    intro name₂ _ hnp
    simp [List.isPrefixOf] at hnp
  | cons a as ih =>
    intro name₂ hw hnp
    cases name₂ with
    | nil =>
      have ha : isDelim a = false := (hw a (by simp)).1
      have hae : a ≠ e := by
        intro h
        rw [h, he] at ha
        exact Bool.noConfusion ha
      simp [List.isPrefixOf, hae]
    | cons b bs =>
      simp only [List.cons_append]
      simp only [List.isPrefixOf] at hnp ⊢
      cases hab : a == b with
      | false => simp [hab]
      | true =>
        simp only [hab, Bool.true_and] at hnp ⊢
        exact ih bs (fun c hc => hw c (by simp [hc])) hnp

theorem findMatchesAux_two_rest {g₂ : Char} {name name₂ : List Char}
    (hne : name ≠ []) (hw : wordChars name)
    (hg₂ : isSigil g₂ = true) (hg₂d : isDelim g₂ = false)
    (hw₂ : wordChars name₂)
    (mid post : List Char) (hmid : ∀ c ∈ mid, isSigil c = false)
    (hpost : ∀ c ∈ post, isSigil c = false)
    {d₂ e₂ : Char} (hd₂ : isDelim d₂ = true) (he₂ : isDelim e₂ = true)
    (hnp : List.isPrefixOf name name₂ = false) :
    ∀ fuel i, findMatchesAux name
        ((mid.length + name₂.length + post.length + 3) + fuel) i
        (mid ++ d₂ :: g₂ :: (name₂ ++ e₂ :: post)) = [] := by
  intro fuel i
  rw [show mid.length + name₂.length + post.length + 3 + fuel =
    mid.length + ((name₂.length + post.length + 3) + fuel) by omega]
  rw [findMatchesAux_skip name mid (d₂ :: g₂ :: (name₂ ++ e₂ :: post))
    (fun c hc => hmid c (List.mem_of_mem_drop hc))
    (fun c _ => matchLenAt_sigil_word hne hw hg₂ c d₂ _)]
  rw [show name₂.length + post.length + 3 + fuel =
    ((name₂.length + post.length + 2) + fuel) + 1 by omega]
  rw [findMatchesAux_step_none name _ _
    (matchLenAt_prefix_false d₂ g₂
      (isPrefixOf_append_delim he₂ post name name₂ hw hnp))]
  rw [show g₂ :: (name₂ ++ e₂ :: post) = (g₂ :: name₂) ++ (e₂ :: post) by simp]
  rw [show name₂.length + post.length + 2 + fuel =
    (g₂ :: name₂).length + ((post.length + 1) + fuel) by simp <;> omega]
  rw [findMatchesAux_skip name (g₂ :: name₂) (e₂ :: post)
    (fun c hc => (hw₂ c (by simpa using hc)).2.1)
    (fun c hc => by
      rcases List.mem_cons.1 hc with rfl | h
      · exact matchLenAt_not_delim name hg₂d _
      · exact matchLenAt_not_delim name (hw₂ c h).1 _)]
  rw [show post.length + 1 + fuel = (e₂ :: post).length + fuel by simp]
  exact findMatchesAux_seg_nil name (e₂ :: post)
    (fun c hc => hpost c (by simpa using hc)) fuel _

theorem findMatches_twoparam
    {g g₂ : Char} {name name₂ : List Char}
    (hg : isSigil g = true) (hne : name ≠ []) (hw : wordChars name)
    (hg₂ : isSigil g₂ = true) (hg₂d : isDelim g₂ = false) (hw₂ : wordChars name₂)
    (pre mid post : List Char)
    (hpre : sigilFree pre) (hmid : sigilFree mid) (hpost : sigilFree post)
    {d₁ e₁ d₂ e₂ : Char}
    (hd₁ : isDelim d₁ = true) (he₁ : isDelim e₁ = true)
    (hd₂ : isDelim d₂ = true) (he₂ : isDelim e₂ = true)
    (hnp : List.isPrefixOf name name₂ = false) :
    findMatches name (pre ++ d₁ :: g ::
        (name ++ e₁ :: (mid ++ d₂ :: g₂ :: (name₂ ++ e₂ :: post)))) =
      [(pre.length, pre.length + name.length + 3)] := by
  unfold findMatches
  rw [show (pre ++ d₁ :: g ::
      (name ++ e₁ :: (mid ++ d₂ :: g₂ :: (name₂ ++ e₂ :: post)))).length + 1 =
    pre.length + (((name.length +
      (mid.length + name₂.length + post.length + 3) + 3)) + 1)
    by simp <;> omega]
  rw [findMatchesAux_skip name pre
    (d₁ :: g :: (name ++ e₁ :: (mid ++ d₂ :: g₂ :: (name₂ ++ e₂ :: post))))
    (fun c hc => (hpre c (List.mem_of_mem_drop hc)).1)
    (fun c _ => matchLenAt_sigil_word hne hw hg c d₁ _)]
  rw [show name.length + (mid.length + name₂.length + post.length + 3) + 3 + 1 =
    ((name.length + (mid.length + name₂.length + post.length + 3) + 3)) + 1
    from rfl]
  rw [findMatchesAux_step_some name
    (name.length + (mid.length + name₂.length + post.length + 3) + 3)
    (0 + pre.length)
    (matchLenAt_delim name (mid ++ d₂ :: g₂ :: (name₂ ++ e₂ :: post)) hd₁ hg he₁)]
  have hdropR : (d₁ :: g ::
      (name ++ e₁ :: (mid ++ d₂ :: g₂ :: (name₂ ++ e₂ :: post)))).drop
      (name.length + 3) = mid ++ d₂ :: g₂ :: (name₂ ++ e₂ :: post) := by
    rw [show d₁ :: g ::
        (name ++ e₁ :: (mid ++ d₂ :: g₂ :: (name₂ ++ e₂ :: post))) =
      (d₁ :: g :: name ++ [e₁]) ++ (mid ++ d₂ :: g₂ :: (name₂ ++ e₂ :: post))
      by simp]
    rw [show name.length + 3 = (d₁ :: g :: name ++ [e₁]).length by simp <;> omega]
    exact List.drop_left _ _
  rw [hdropR]
  rw [show name.length + (mid.length + name₂.length + post.length + 3) + 3 =
    (mid.length + name₂.length + post.length + 3) + (name.length + 3) by omega]
  rw [findMatchesAux_two_rest hne hw hg₂ hg₂d hw₂ mid post
    (fun c hc => (hmid c hc).1) (fun c hc => (hpost c hc).1) hd₂ he₂ hnp
    (name.length + 3)]
  rw [show ((0 : Nat) + pre.length, 0 + pre.length + (name.length + 3)) =
    (pre.length, pre.length + name.length + 3) by
      simp only [Prod.mk.injEq]
      omega]

theorem adjustCommand_twoparam
    {g g₂ : Char} {name name₂ : List Char}
    (hg : isSigil g = true) (hne : name ≠ []) (hw : wordChars name)
    (hg₂ : isSigil g₂ = true) (hg₂d : isDelim g₂ = false)
    (hne₂ : name₂ ≠ []) (hw₂ : wordChars name₂)
    (pre mid post : List Char)
    (hpre : sigilFree pre) (hmid : sigilFree mid) (hpost : sigilFree post)
    {d₁ e₁ d₂ e₂ : Char}
    (hd₁ : isDelim d₁ = true) (hd₁s : isSigil d₁ = false)
    (he₁ : isDelim e₁ = true) (he₁s : isSigil e₁ = false)
    (hd₂ : isDelim d₂ = true) (he₂ : isDelim e₂ = true)
    (hnp : List.isPrefixOf name name₂ = false)
    (p p₂ : Param) (hpname : p.name.data = g :: name)
    (hpct : p.customTypeName = "")
    (hp₂name : p₂.name.data = g₂ :: name₂) :
    adjustCommand (String.mk (pre ++ d₁ :: g ::
        (name ++ e₁ :: (mid ++ d₂ :: g₂ :: (name₂ ++ e₂ :: post))))) [p, p₂] =
      String.mk (pre ++ d₁ :: '$' :: '1' ::
        (e₁ :: (mid ++ d₂ :: ((paramSubst 1 p₂).data ++ e₂ :: post)))) := by
  have hsub0 : paramSubst 0 p = "$1" := by
    unfold paramSubst
    rw [hpct]
    decide
  have hsub0d : (paramSubst 0 p).data = ['$', '1'] := by
    rw [hsub0]
  have hnq : ∀ c ∈ pre ++ d₁ :: g ::
      (name ++ e₁ :: (mid ++ d₂ :: g₂ :: (name₂ ++ e₂ :: post))), c ≠ '\'' := by
    intro c hc
    rcases List.mem_append.1 hc with h1 | h2
    · exact (hpre c h1).2
    rcases List.mem_cons.1 h2 with rfl | h3
    · exact ne_quote_of_delim hd₁
    rcases List.mem_cons.1 h3 with rfl | h4
    · exact ne_quote_of_sigil hg
    rcases List.mem_append.1 h4 with h5 | h6
    · exact (hw c h5).2.2
    rcases List.mem_cons.1 h6 with rfl | h7
    · exact ne_quote_of_delim he₁
    rcases List.mem_append.1 h7 with h8 | h9
    · exact (hmid c h8).2
    rcases List.mem_cons.1 h9 with rfl | h10
    · exact ne_quote_of_delim hd₂
    rcases List.mem_cons.1 h10 with rfl | h11
    · exact ne_quote_of_sigil hg₂
    rcases List.mem_append.1 h11 with h12 | h13
    · exact (hw₂ c h12).2.2
    rcases List.mem_cons.1 h13 with rfl | h14
    · exact ne_quote_of_delim he₂
    · exact (hpost c h14).2
  have hpass1 := replaceParameterName_single pre
    (mid ++ d₂ :: g₂ :: (name₂ ++ e₂ :: post)) name ['$', '1'] d₁ e₁ g
    (findMatches_twoparam hg hne hw hg₂ hg₂d hw₂ pre mid post hpre hmid hpost
      hd₁ he₁ hd₂ he₂ hnp) hnq
  have hO₁ : (pre ++ [d₁]) ++ ['$', '1'] ++
      e₁ :: (mid ++ d₂ :: g₂ :: (name₂ ++ e₂ :: post)) =
      buildCmd g₂ name₂ (pre ++ d₁ :: '$' :: '1' :: e₁ :: mid)
        [(d₂, e₂, post)] := by
    simp [buildCmd, List.append_assoc]
  have hseg₁ : sigilFree (pre ++ d₁ :: '$' :: '1' :: e₁ :: mid) := by
    intro c hc
    rcases List.mem_append.1 hc with h1 | h2
    · exact hpre c h1
    rcases List.mem_cons.1 h2 with rfl | h3
    · exact ⟨hd₁s, ne_quote_of_delim hd₁⟩
    rcases List.mem_cons.1 h3 with rfl | h4
    · exact ⟨by decide, by decide⟩
    rcases List.mem_cons.1 h4 with rfl | h5
    · exact ⟨by decide, by decide⟩
    rcases List.mem_cons.1 h5 with rfl | h6
    · exact ⟨he₁s, ne_quote_of_delim he₁⟩
    · exact hmid c h6
  have hblk : blocksSep [(d₂, e₂, post)] := by
    intro b hbm
    rcases List.mem_cons.1 hbm with rfl | h
    · exact ⟨hd₂, he₂, hpost⟩
    · exact absurd h (List.not_mem_nil b)
  have hpass2 := replaceParameterName_build hg₂ hne₂ hw₂ (paramSubst 1 p₂).data
    (pre ++ d₁ :: '$' :: '1' :: e₁ :: mid) [(d₂, e₂, post)] hseg₁ hblk
  unfold adjustCommand
  simp only [adjustCommandAux]
  rw [show (0 : Nat) + 1 = 1 from rfl]
  rw [hpname, hsub0d, hp₂name, hpass1, hO₁, hpass2]
  simp [buildOut, List.append_assoc]

/-- C5 (amended): within a single-quote-free command built from
sigil-free text (no ':', '|' or '@') interleaved with any number of
occurrences of the parameter's sigil-plus-name, each occurrence preceded
by its own separator character (one of space tab CR LF - | , ( ) ; = + /
< >) and followed by its own separator, the rewriter replaces every
occurrence exactly once, keeping both separators; the replacement text
for parameter i is the 1-based placeholder $N, with ::TYPE appended when
a custom type name is set; an occurrence at the very start of the
command (no leading separator) is left unrewritten; an occurrence
terminated by the end of the command is replaced with the name's last
character duplicated after the placeholder; a single-quoted literal is
copied verbatim whatever occurrences it contains; and two parameters
with non-interfering passes (first untyped, its name not a prefix of the
second's, the first occurrence's separators not the dual-class '|') are
rewritten to $1 and $2 by the successive passes. -/
theorem rewrite_spec (g : Char) (name new pre : List Char)
    (blocks : List (Char × Char × List Char)) (p : Param)
    (hg : isSigil g = true) (hne : name ≠ []) (hw : wordChars name)
    (hpre : sigilFree pre) (hb : blocksSep blocks)
    (hpname : p.name.data = g :: name) :
    replaceParameterName (buildCmd g name pre blocks) (g :: name) new =
      buildOut new pre blocks ∧
    adjustCommand (String.mk (buildCmd g name pre blocks)) [p] =
      String.mk (buildOut (paramSubst 0 p).data pre blocks) ∧
    (p.customTypeName ≠ "" → paramSubst 0 p = "$1" ++ "::" ++ p.customTypeName) ∧
    (∀ d rest, isDelim d = true → sigilFree rest →
      adjustCommand (String.mk ((g :: name) ++ d :: rest)) [p] =
        String.mk ((g :: name) ++ d :: rest)) ∧
    (∀ d, isDelim d = true →
      adjustCommand (String.mk (pre ++ d :: g :: name)) [p] =
        String.mk (pre ++ [d] ++ (paramSubst 0 p).data ++
          name.drop (name.length - 1))) ∧
    (∀ q post, (∀ c ∈ q, c ≠ '\'') → sigilFree post →
      replaceParameterName (pre ++ '\'' :: (q ++ '\'' :: post)) (g :: name) new =
        pre ++ '\'' :: (q ++ '\'' :: post)) ∧
    (∀ (d₁ e₁ d₂ e₂ g₂ : Char) (name₂ mid post : List Char) (p₂ : Param),
      isDelim d₁ = true → isSigil d₁ = false →
      isDelim e₁ = true → isSigil e₁ = false →
      isDelim d₂ = true → isDelim e₂ = true →
      isSigil g₂ = true → isDelim g₂ = false →
      name₂ ≠ [] → wordChars name₂ →
      List.isPrefixOf name name₂ = false →
      sigilFree mid → sigilFree post →
      p.customTypeName = "" → p₂.name.data = g₂ :: name₂ →
      adjustCommand (String.mk (pre ++ d₁ :: g ::
          (name ++ e₁ :: (mid ++ d₂ :: g₂ :: (name₂ ++ e₂ :: post))))) [p, p₂] =
        String.mk (pre ++ d₁ :: '$' :: '1' ::
          (e₁ :: (mid ++ d₂ :: ((paramSubst 1 p₂).data ++ e₂ :: post))))) := by
  refine ⟨replaceParameterName_build hg hne hw new pre blocks hpre hb,
    adjustCommand_build hg hne hw pre blocks hpre hb p hpname,
    ?_, ?_, ?_, ?_, ?_⟩
  · intro hct
    simp only [paramSubst, if_neg hct]
    rfl
  · intro d rest hd hrest
    exact adjustCommand_start hg hne hw hd rest hrest p hpname
  · intro d hd
    exact adjustCommand_endm hg hne hw pre hpre hd p hpname
  · intro q post hq hpost
    exact replaceParameterName_quoted pre q post name new g
      (fun c hc => (hpre c hc).2) hq (fun c hc => (hpost c hc).2)
      (findMatches_nil_of_sigilFree name pre (fun c hc => (hpre c hc).1))
      (findMatches_nil_of_sigilFree name post (fun c hc => (hpost c hc).1))
  · intro d₁ e₁ d₂ e₂ g₂ name₂ mid post p₂ hd₁ hd₁s he₁ he₁s hd₂ he₂ hg₂ hg₂d
      hne₂ hw₂ hnp hmid hpost hpct hp₂name
    exact adjustCommand_twoparam hg hne hw hg₂ hg₂d hne₂ hw₂ pre mid post
      hpre hmid hpost hd₁ hd₁s he₁ he₁s hd₂ he₂ hnp p p₂ hpname hpct hp₂name

/-- Witness for C5 (amended): both bracketed occurrences in
"select @id, @id; ok" become $1; "@id x" (occurrence at the start) is
unchanged; "select @id" (occurrence at the end) becomes "select $1d"
with the 'd' duplicated; the quoted occurrence in "select'@id'b" is left
untouched; and the two parameters of
"select @id where x = :ab;" become $1 and $2::myenum. -/
theorem rewrite_spec_witness :
    adjustCommand "select @id, @id; ok" [⟨"@id", ""⟩] = "select $1, $1; ok" ∧
    adjustCommand "@id x" [⟨"@id", ""⟩] = "@id x" ∧
    adjustCommand "select @id" [⟨"@id", ""⟩] = "select $1d" ∧
    replaceParameterName ("select'@id'b").data ("@id").data ("$1").data =
      ("select'@id'b").data ∧
    adjustCommand "select @id where x = :ab;" [⟨"@id", ""⟩, ⟨":ab", "myenum"⟩] =
      "select $1 where x = $2::myenum;" := by
  have h := rewrite_spec '@' ("id").data ("$1").data ("select").data
    [(' ', ',', ([] : List Char)), (' ', ';', (" ok").data)] ⟨"@id", ""⟩
    (by decide) (by decide) (by decide) (by decide) (by decide) (by decide)
  refine ⟨?_, ?_, ?_, ?_, ?_⟩
  · have h2 := h.2.1
    have e1 : String.mk (buildCmd '@' ("id").data ("select").data
        [(' ', ',', ([] : List Char)), (' ', ';', (" ok").data)]) =
        "select @id, @id; ok" := by decide
    have e2 : String.mk (buildOut (paramSubst 0 (⟨"@id", ""⟩ : Param)).data
        ("select").data [(' ', ',', ([] : List Char)), (' ', ';', (" ok").data)]) =
        "select $1, $1; ok" := by decide
    rw [e1, e2] at h2
    exact h2
  · have h4 := h.2.2.2.1 ' ' ("x").data (by decide) (by decide)
    have e1 : String.mk (('@' :: ("id").data) ++ ' ' :: ("x").data) =
        "@id x" := by decide
    rw [e1] at h4
    exact h4
  · have h5 := h.2.2.2.2.1 ' ' (by decide)
    have e1 : String.mk (("select").data ++ ' ' :: '@' :: ("id").data) =
        "select @id" := by decide
    have e2 : String.mk (("select").data ++ [' '] ++
        (paramSubst 0 (⟨"@id", ""⟩ : Param)).data ++
        ("id").data.drop (("id").data.length - 1)) = "select $1d" := by decide
    rw [e1, e2] at h5
    exact h5
  · have h6 := h.2.2.2.2.2.1 ("@id").data ("b").data (by decide) (by decide)
    have e1 : ("select").data ++ '\'' :: (("@id").data ++ '\'' :: ("b").data) =
        ("select'@id'b").data := by decide
    have e2 : ('@' :: ("id").data) = ("@id").data := by decide
    rw [e1, e2] at h6
    exact h6
  · have h7 := h.2.2.2.2.2.2 ' ' ' ' ' ' ';' ':' ("ab").data ("where x =").data
      ([] : List Char) ⟨":ab", "myenum"⟩ (by decide) (by decide) (by decide)
      (by decide) (by decide) (by decide) (by decide) (by decide) (by decide)
      (by decide) (by decide) (by decide) (by decide) (by decide) (by decide)
    have e1 : String.mk (("select").data ++ ' ' :: '@' ::
        (("id").data ++ ' ' :: (("where x =").data ++ ' ' :: ':' ::
          (("ab").data ++ ';' :: ([] : List Char))))) =
        "select @id where x = :ab;" := by decide
    have e2 : String.mk (("select").data ++ ' ' :: '$' :: '1' ::
        (' ' :: (("where x =").data ++ ' ' ::
          ((paramSubst 1 (⟨":ab", "myenum"⟩ : Param)).data ++ ';' ::
            ([] : List Char))))) = "select $1 where x = $2::myenum;" := by decide
    rw [e1, e2] at h7
    exact h7

end Pgsql
